import Mathlib

/-!
Verification of `src/hooks/check-todos-from-transcript.py` against its
natural-language specification.

The script is embedded shallowly:

* JSON values (`json.loads` results) are the inductive type `J`; Python
  dictionaries become ordered association lists, which matches CPython's
  insertion-ordered `dict`.  JSON numbers are modelled as `Int`; no claim
  depends on float-valued JSON.
* A transcript line is an `Option J`: `none` models a line that is blank
  after stripping or that raises `json.JSONDecodeError`, both of which the
  script skips with `continue`; `some j` models a line that decodes to `j`.
* Python code that can raise an uncaught exception (e.g. `entry.get(...)`
  when `entry` is not a dict, or iterating a non-iterable) is modelled in
  the `Except Unit` monad: `.error ()` marks an uncaught exception escaping
  the pass.
* Python truthiness of decoded JSON values is `truthy`; `x or y` is `pyOr`;
  `str(x)` on scalar values is `pyStr`.
-/

inductive J where
  | null
  | bool (b : Bool)
  | num (n : Int)
  | str (s : String)
  | arr (xs : List J)
  | obj (kvs : List (String × J))

mutual

def J.beq : J → J → Bool
  | .null, .null => true
  | .bool a, .bool b => a == b
  | .num a, .num b => a == b
  | .str a, .str b => a == b
  | .arr xs, .arr ys => J.beqArr xs ys
  | .obj xs, .obj ys => J.beqObj xs ys
  | _, _ => false

def J.beqArr : List J → List J → Bool
  | [], [] => true
  | x :: xs, y :: ys => J.beq x y && J.beqArr xs ys
  | _, _ => false

def J.beqObj : List (String × J) → List (String × J) → Bool
  | [], [] => true
  | (k, v) :: xs, (l, w) :: ys => (k == l && J.beq v w) && J.beqObj xs ys
  | _, _ => false

end

instance : BEq J := ⟨J.beq⟩

mutual

theorem J.beq_refl : ∀ (a : J), J.beq a a = true
  | .null => rfl
  | .bool b => beq_self_eq_true b
  | .num n => beq_self_eq_true n
  | .str s => beq_self_eq_true s
  | .arr xs => J.beqArr_refl xs
  | .obj xs => J.beqObj_refl xs

theorem J.beqArr_refl : ∀ (xs : List J), J.beqArr xs xs = true
  | [] => rfl
  | x :: xs => by
      have h1 := J.beq_refl x
      have h2 := J.beqArr_refl xs
      show (J.beq x x && J.beqArr xs xs) = true
      rw [h1, h2]; rfl

theorem J.beqObj_refl : ∀ (xs : List (String × J)), J.beqObj xs xs = true
  | [] => rfl
  | (k, v) :: xs => by
      have h1 := J.beq_refl v
      have h2 := J.beqObj_refl xs
      show ((k == k && J.beq v v) && J.beqObj xs xs) = true
      rw [h1, h2, beq_self_eq_true k]; rfl

end

mutual

theorem J.eq_of_beq : ∀ (a b : J), J.beq a b = true → a = b
  | .null, b, h => by cases b <;> first | rfl | exact absurd h (by exact Bool.false_ne_true)
  | .bool a, b, h => by
      cases b <;> try exact absurd h (by exact Bool.false_ne_true)
      exact congrArg J.bool (LawfulBEq.eq_of_beq h)
  | .num a, b, h => by
      cases b <;> try exact absurd h (by exact Bool.false_ne_true)
      exact congrArg J.num (LawfulBEq.eq_of_beq h)
  | .str a, b, h => by
      cases b <;> try exact absurd h (by exact Bool.false_ne_true)
      exact congrArg J.str (LawfulBEq.eq_of_beq h)
  | .arr xs, b, h => by
      cases b <;> try exact absurd h (by exact Bool.false_ne_true)
      exact congrArg J.arr (J.eqArr_of_beq xs _ h)
  | .obj xs, b, h => by
      cases b <;> try exact absurd h (by exact Bool.false_ne_true)
      exact congrArg J.obj (J.eqObj_of_beq xs _ h)

theorem J.eqArr_of_beq : ∀ (xs ys : List J), J.beqArr xs ys = true → xs = ys
  | [], [], _ => rfl
  | [], _ :: _, h => absurd h (by exact Bool.false_ne_true)
  | _ :: _, [], h => absurd h (by exact Bool.false_ne_true)
  | x :: xs, y :: ys, h => by
      have h' : (J.beq x y && J.beqArr xs ys) = true := h
      rw [Bool.and_eq_true] at h'
      rw [J.eq_of_beq x y h'.1, J.eqArr_of_beq xs ys h'.2]

theorem J.eqObj_of_beq : ∀ (xs ys : List (String × J)), J.beqObj xs ys = true → xs = ys
  | [], [], _ => rfl
  | [], _ :: _, h => absurd h (by exact Bool.false_ne_true)
  | _ :: _, [], h => absurd h (by exact Bool.false_ne_true)
  | (k, v) :: xs, (l, w) :: ys, h => by
      have h' : ((k == l && J.beq v w) && J.beqObj xs ys) = true := h
      rw [Bool.and_eq_true, Bool.and_eq_true] at h'
      rw [LawfulBEq.eq_of_beq h'.1.1, J.eq_of_beq v w h'.1.2, J.eqObj_of_beq xs ys h'.2]

end

instance : LawfulBEq J where
  eq_of_beq h := J.eq_of_beq _ _ h
  rfl := J.beq_refl _

instance : DecidableEq J := fun a b =>
  decidable_of_iff ((a == b) = true) beq_iff_eq

/-- Python truthiness of a decoded JSON value (`if x:`). -/
def truthy : J → Bool
  | .null => false
  | .bool b => b
  | .num n => n != 0
  | .str s => s != ""
  | .arr xs => !xs.isEmpty
  | .obj kvs => !kvs.isEmpty

/-- Python `x or y` on decoded JSON values. -/
def pyOr (a b : J) : J := if truthy a then a else b

/-- Python `str(x)` for the scalar JSON values.  `str()` of lists/dicts is not
modelled (no claim depends on it); those cases are given fixed placeholders
and are unreachable in every use below. -/
def pyStr : J → String
  | .null => "None"
  | .bool true => "True"
  | .bool false => "False"
  | .num n => toString n
  | .str s => s
  | .arr _ => "<list>"
  | .obj _ => "<dict>"

/-- Field lookup in a JSON object; `none` for a missing key or a non-object. -/
def objLookup : J → String → Option J
  | .obj kvs, k => kvs.lookup k
  | _, _ => none

def isObjB : J → Bool
  | .obj _ => true
  | _ => false

/-- Whether a Python value may be a `dict` key (`in` raises `TypeError` on
unhashable values; decoded JSON lists and dicts are unhashable). -/
def hashable : J → Bool
  | .arr _ => false
  | .obj _ => false
  | _ => true

/-- `d[k]` membership for the insertion-ordered task dictionary. -/
def dictMem (m : List (J × J)) (k : J) : Bool := m.any (fun p => p.1 == k)

/-- `d.get(k)` for the insertion-ordered task dictionary. -/
def dictGet? (m : List (J × J)) (k : J) : Option J :=
  (m.find? (fun p => p.1 == k)).map (fun p => p.2)

/-- `d[k] = v`: overwrites in place (keeping insertion position) when the key
exists, else appends — CPython `dict` assignment semantics. -/
def dictSet (m : List (J × J)) (k v : J) : List (J × J) :=
  if dictMem m k then m.map (fun p => if p.1 == k then (k, v) else p)
  else m ++ [(k, v)]

/-- `obj[f] = v` on a JSON object value (used for `tasks[task_id][field] = v`;
the task values are always dicts, so the non-object case is unreachable and
returns the value unchanged). -/
def objSet : J → String → J → J
  | .obj kvs, f, v =>
      .obj (if kvs.any (fun p => p.1 == f) then kvs.map (fun p => if p.1 == f then (f, v) else p)
            else kvs ++ [(f, v)])
  | j, _, _ => j

/-- `tasks[task_id][field] = v`. -/
def dictModify (m : List (J × J)) (k : J) (f : String) (v : J) : List (J × J) :=
  m.map (fun p => if p.1 == k then (p.1, objSet p.2 f v) else p)

/-- `extract_tool_calls_from_entry`, inner block scan shared by record shapes
1 (`type == "assistant"`, blocks at `message.content`) and 2
(`type == "message"`, blocks at `content`): entries with
`block.get("type") == "tool_use"` and a truthy `name` contribute
`(block.get("name", ""), block.get("input", {}))`; a non-list container
contributes nothing (`isinstance(content, list)` guard). -/
def extractBlocks (content : J) : List (J × J) :=
  match content with
  | .arr blocks =>
      blocks.foldl (fun acc block =>
        match block with
        | .obj bkvs =>
            if (bkvs.lookup "type").getD .null == J.str "tool_use" then
              let tool_name := (bkvs.lookup "name").getD (.str "")
              let tool_input := (bkvs.lookup "input").getD (.obj [])
              if truthy tool_name then acc ++ [(tool_name, tool_input)] else acc
            else acc
        | _ => acc) []
  | _ => []

/-- `extract_tool_calls_from_entry(entry)`.  `.error ()` models the uncaught
`AttributeError` Python raises when `entry` is not a dict (`entry.get`), or
when `entry["type"] == "assistant"` and `entry.get("message", {})` is not a
dict (`message.get`). -/
def extract_tool_calls_from_entry (entry : J) : Except Unit (List (J × J)) :=
  match entry with
  | .obj kvs =>
      let ty := (kvs.lookup "type").getD .null
      let p1 : Except Unit (List (J × J)) :=
        if ty == J.str "assistant" then
          match (kvs.lookup "message").getD (.obj []) with
          | .obj mkvs => .ok (extractBlocks ((mkvs.lookup "content").getD (.arr [])))
          | _ => .error ()
        else .ok []
      match p1 with
      | .error e => .error e
      | .ok calls1 =>
          let calls2 :=
            if ty == J.str "message" then extractBlocks ((kvs.lookup "content").getD (.arr []))
            else []
          let calls3 :=
            if ty == J.str "tool_use" then
              let n := pyOr ((kvs.lookup "name").getD (.str "")) ((kvs.lookup "tool_name").getD (.str ""))
              let i := pyOr ((kvs.lookup "input").getD (.obj [])) ((kvs.lookup "tool_input").getD (.obj []))
              if truthy n then [(n, i)] else []
            else []
          .ok (calls1 ++ calls2 ++ calls3)
  | _ => .error ()

/-- The accumulator of the single pass inside `find_incomplete_items`:
`latest_todos = []`, `tasks = {}` (insertion-ordered, values are the task
dicts), `next_task_id = 1`. -/
structure LState where
  latest_todos : J
  tasks : List (J × J)
  next_task_id : Nat
deriving DecidableEq

def initState : LState := ⟨J.arr [], [], 1⟩

/-- One `(tool_name, tool_input)` step of the reduction loop in
`find_incomplete_items`.  `.error ()` models the uncaught exceptions Python
raises there: `tool_input.get` on a non-dict input, and
`task_id not in tasks` on an unhashable (list/dict) `taskId`. -/
def applyToolCall (st : LState) (tc : J × J) : Except Unit LState :=
  if tc.1 == J.str "TodoWrite" then
    match tc.2 with
    | .obj ikvs =>
        let todos := (ikvs.lookup "todos").getD (.arr [])
        .ok (if truthy todos then { st with latest_todos := todos } else st)
    | _ => .error ()
  else if tc.1 == J.str "TaskCreate" then
    match tc.2 with
    | .obj ikvs =>
        .ok { st with
              tasks := dictSet st.tasks (.str (toString st.next_task_id))
                (.obj [("subject", (ikvs.lookup "subject").getD (.str "")),
                       ("description", (ikvs.lookup "description").getD (.str "")),
                       ("status", .str "pending")]),
              next_task_id := st.next_task_id + 1 }
    | _ => .error ()
  else if tc.1 == J.str "TaskUpdate" then
    match tc.2 with
    | .obj ikvs =>
        let task_id := (ikvs.lookup "taskId").getD (.str "")
        if truthy task_id then
          if hashable task_id then
            let tasks1 :=
              if dictMem st.tasks task_id then st.tasks
              else
                dictSet st.tasks task_id
                  (.obj [("subject", (ikvs.lookup "subject").getD (.str ("Task " ++ pyStr task_id))),
                         ("description", (ikvs.lookup "description").getD (.str "")),
                         ("status", .str "pending")])
            let tasks2 := match ikvs.lookup "status" with
              | some v => dictModify tasks1 task_id "status" v
              | none => tasks1
            let tasks3 := match ikvs.lookup "subject" with
              | some v => dictModify tasks2 task_id "subject" v
              | none => tasks2
            let tasks4 := match ikvs.lookup "description" with
              | some v => dictModify tasks3 task_id "description" v
              | none => tasks3
            .ok { st with tasks := tasks4 }
          else .error ()
        else .ok st
    | _ => .error ()
  else .ok st

/-- One transcript line of the reduction loop: a blank or undecodable line
(`none`) is skipped with `continue`; a decoded line is passed through
`extract_tool_calls_from_entry` and each extracted call is applied in order. -/
def applyLine (st : LState) (line : Option J) : Except Unit LState :=
  match line with
  | none => .ok st
  | some entry =>
      match extract_tool_calls_from_entry entry with
      | .error e => .error e
      | .ok tcs => tcs.foldlM applyToolCall st

/-- The whole `with open(...)` loop of `find_incomplete_items`. -/
def runLines (lines : List (Option J)) : Except Unit LState :=
  lines.foldlM applyLine initState

/-- One incomplete item (a dict with `status`, `content`, `source` and, for
task-sourced items, `task_id`; the code always populates every key it later
reads, so a structure is a faithful model). -/
structure Item where
  status : J
  content : J
  source : String
  task_id : Option J
deriving DecidableEq

/-- One iteration of the `for todo in latest_todos` loop.  A non-dict element
raises `AttributeError` at `todo.get` (`.error ()`). -/
def todoItems1 (todo : J) : Except Unit (List Item) :=
  match todo with
  | .obj kvs =>
      let status := (kvs.lookup "status").getD (.str "")
      let content := (kvs.lookup "content").getD (.str "")
      .ok (if status == J.str "completed" then []
           else [{ status := status, content := content, source := "todo", task_id := none }])
  | _ => .error ()

/-- The `for todo in latest_todos` loop.  A truthy non-list `latest_todos`
always raises in Python (`TypeError` when iterating a number/bool/None,
`AttributeError` at `todo.get` when iterating the characters of a non-empty
string or the keys of a non-empty dict); the falsy non-list values `""` and
`{}` iterate zero times, and `None`/`False`/`0` raise `TypeError` (all five
are unassignable to `latest_todos`, which only ever holds `[]` or a truthy
value). -/
def buildTodoItems (latest_todos : J) : Except Unit (List Item) :=
  match latest_todos with
  | .arr todos => todos.foldlM (fun acc todo => (todoItems1 todo).map (fun its => acc ++ its)) []
  | .str "" => .ok []
  | .obj [] => .ok []
  | _ => .error ()

/-- One iteration of the `for task_id, task in tasks.items()` loop.  The
values of `tasks` are always dicts built by the loop itself, so the non-dict
case (Python `AttributeError` at `task.get`) is unreachable. -/
def taskItems1 (task_id task : J) : Except Unit (List Item) :=
  match task with
  | .obj kvs =>
      let status := (kvs.lookup "status").getD (.str "pending")
      if status == J.str "completed" then .ok []
      else
        let content := pyOr ((kvs.lookup "subject").getD (.str ""))
                            ((kvs.lookup "description").getD (.str ("Task " ++ pyStr task_id)))
        .ok [{ status := status, content := content, source := "task", task_id := some task_id }]
  | _ => .error ()

/-- The tail of `find_incomplete_items`: build the incomplete list, legacy
todos first, then the tasks in the insertion order of the mapping. -/
def buildItems (st : LState) : Except Unit (List Item) :=
  match buildTodoItems st.latest_todos with
  | .error e => .error e
  | .ok tIt =>
      match st.tasks.foldlM (fun acc p => (taskItems1 p.1 p.2).map (fun its => acc ++ its)) [] with
      | .error e => .error e
      | .ok kIt => .ok (tIt ++ kIt)

/-- `find_incomplete_items(transcript_path)`.  `none` models a path for which
`transcript_path.exists()` is false (immediately `[]`); `some lines` models an
existing transcript file with the given decoded lines. -/
def find_incomplete_items (file : Option (List (Option J))) : Except Unit (List Item) :=
  match file with
  | none => .ok []
  | some lines =>
      match runLines lines with
      | .error e => .error e
      | .ok st => buildItems st

/-- One line of the output loop in `main`. -/
def formatItem (it : Item) : String :=
  if it.source == "task" then
    "  - [" ++ pyStr it.status ++ "] (Task #" ++ pyStr (it.task_id.getD (.str "?")) ++ ") " ++ pyStr it.content
  else
    "  - [" ++ pyStr it.status ++ "] " ++ pyStr it.content

/-- The exit-code/report tail of `main`: exit 0 and no output when nothing is
incomplete, else exit 1 with the `INCOMPLETE_TODOS` marker line followed by
one formatted line per item. -/
def decideOutput (items : List Item) : Nat × List String :=
  if items.isEmpty then (0, [])
  else (1, "INCOMPLETE_TODOS" :: items.map formatItem)

/-- The stripped stdin content of `main`: empty, non-empty but not decodable
as JSON (`json.JSONDecodeError`), or decoded to a JSON value. -/
inductive StdinInput where
  | empty
  | malformed
  | parsed (j : J)
deriving DecidableEq

/-- Observable outcome of one invocation: process exit code, stdout lines,
and whether a diagnostic was printed to stderr. -/
structure MainResult where
  exit_code : Nat
  stdout_lines : List String
  stderr_diag : Bool
deriving DecidableEq

/-- `main()`.  `expand` models `Path.expanduser`; `fs` maps an expanded path
to the decoded lines of an existing transcript file (`none` = no such file).
`.error ()` models an uncaught exception (non-dict hook input at
`hook_input.get`, non-string truthy `transcript_path` at `Path(...)`, or an
exception escaping `find_incomplete_items`). -/
def main_run (stdin : StdinInput) (expand : String → String)
    (fs : String → Option (List (Option J))) : Except Unit MainResult :=
  match stdin with
  | .empty => .ok ⟨0, [], false⟩
  | .malformed => .ok ⟨2, [], true⟩
  | .parsed hook_input =>
      match hook_input with
      | .obj kvs =>
          let transcript_path := (kvs.lookup "transcript_path").getD (.str "")
          if truthy transcript_path then
            match transcript_path with
            | .str p =>
                match find_incomplete_items (fs (expand p)) with
                | .error e => .error e
                | .ok items =>
                    .ok ⟨(decideOutput items).1, (decideOutput items).2, false⟩
            | _ => .error ()
          else .ok ⟨0, [], false⟩
      | _ => .error ()

/-- Modelled from the spec: the Authoritative Snapshot Reader (spec §4.4) and
its merge into the Reconciler (spec §4.5) are not present in the source tree;
only the transcript/ledger pipeline is.  A snapshot directory is modelled as
the ordered list of its task files, each a pair of the task id derived from
the file's name (the stem of `<task_id>.json`) and, when the file can be read
and parsed as a JSON object, its fields (`none` models a file skipped because
of a parse or access failure).  Per §4.4, a parsed file yields a task whose
status defaults to `"pending"` when absent, whose content is `subject`,
falling back to `description`, falling back to a placeholder naming the id,
and files whose status is `"completed"` or `"deleted"` are excluded entirely. -/
def snapItem1 (file : String × Option (List (String × J))) : List Item :=
  match file.2 with
  | none => []
  | some kvs =>
      if ((kvs.lookup "status").getD (.str "pending")) == J.str "completed" ||
         ((kvs.lookup "status").getD (.str "pending")) == J.str "deleted" then []
      else [⟨(kvs.lookup "status").getD (.str "pending"),
        pyOr ((kvs.lookup "subject").getD (.str ""))
          (pyOr ((kvs.lookup "description").getD (.str "")) (.str ("Task " ++ file.1))),
        "task", some (.str file.1)⟩]

def snapItems (files : List (String × Option (List (String × J)))) : List Item :=
  (files.map snapItem1).flatten

/-- Modelled from the spec: the Reconciler when an authoritative snapshot is
available for the session (spec §4.5: the snapshot is used in place of the
in-stream ledger for task-sourced items; todo-sourced items still come from
the event log and precede task-sourced items), composed with the Decision
Formatter contract (spec §4.6/§6): exit 0 and no report when nothing is
incomplete, else exit 1 and the `INCOMPLETE_TODOS` marker followed by one
line per item. -/
def reconcileWithSnapshot (log : List (Option J))
    (files : List (String × Option (List (String × J)))) : Except Unit (Nat × List String) :=
  match runLines log with
  | .error e => .error e
  | .ok st =>
      match buildTodoItems st.latest_todos with
      | .error e => .error e
      | .ok tIt => .ok (decideOutput (tIt ++ snapItems files))


theorem eq_false_of_not_true {b : Bool} (h : ¬ b = true) : b = false := by
  cases b
  · rfl
  · exact absurd rfl h

theorem find?_map_replace (k v : J) : ∀ (m : List (J × J)),
    (m.map (fun p => if p.1 == k then (k, v) else p)).find? (fun p => p.1 == k) =
      (if dictMem m k then some (k, v) else none)
  | [] => rfl
  | p :: m => by
      have ih := find?_map_replace k v m
      simp only [dictMem] at ih ⊢
      by_cases hp : (p.1 == k) = true
      · rw [List.map_cons, if_pos hp,
          @List.find?_cons_of_pos (J × J) (fun q => q.1 == k) (k, v)
            (List.map (fun q => if q.1 == k then (k, v) else q) m) (beq_self_eq_true k)]
        simp [List.any_cons, hp]
      · have hp' : (p.1 == k) = false := eq_false_of_not_true hp
        rw [List.map_cons, if_neg hp,
          @List.find?_cons_of_neg (J × J) (fun q => q.1 == k) p
            (List.map (fun q => if q.1 == k then (k, v) else q) m) hp]
        simp only [List.any_cons, hp', Bool.false_or]
        exact ih

theorem find?_map_replace_ne (k v k' : J) (h : k' ≠ k) : ∀ (m : List (J × J)),
    (m.map (fun p => if p.1 == k then (k, v) else p)).find? (fun p => p.1 == k') =
      m.find? (fun p => p.1 == k')
  | [] => rfl
  | p :: m => by
      have ih := find?_map_replace_ne k v k' h m
      by_cases hp : (p.1 == k) = true
      · have hpk : p.1 = k := eq_of_beq hp
        have hne : ¬(p.1 == k') = true := by
          rw [hpk]; simp [beq_eq_false_iff_ne.mpr fun he => h he.symm]
        have hne' : ¬((k, v).1 == k') = true := by
          simp [beq_eq_false_iff_ne.mpr fun he => h he.symm]
        rw [List.map_cons, if_pos hp,
          @List.find?_cons_of_neg (J × J) (fun q => q.1 == k') (k, v)
            (List.map (fun q => if q.1 == k then (k, v) else q) m) hne',
          @List.find?_cons_of_neg (J × J) (fun q => q.1 == k') p m hne, ih]
      · rw [List.map_cons, if_neg hp]
        by_cases hq : (p.1 == k') = true
        · rw [@List.find?_cons_of_pos (J × J) (fun q => q.1 == k') p
            (List.map (fun q => if q.1 == k then (k, v) else q) m) hq,
            @List.find?_cons_of_pos (J × J) (fun q => q.1 == k') p m hq]
        · rw [@List.find?_cons_of_neg (J × J) (fun q => q.1 == k') p
            (List.map (fun q => if q.1 == k then (k, v) else q) m) hq,
            @List.find?_cons_of_neg (J × J) (fun q => q.1 == k') p m hq, ih]

theorem find?_map_modify (k : J) (f : String) (v : J) : ∀ (m : List (J × J)),
    (m.map (fun p => if p.1 == k then (p.1, objSet p.2 f v) else p)).find? (fun p => p.1 == k) =
      (m.find? (fun p => p.1 == k)).map (fun p => (p.1, objSet p.2 f v))
  | [] => rfl
  | p :: m => by
      have ih := find?_map_modify k f v m
      by_cases hp : (p.1 == k) = true
      · rw [List.map_cons, if_pos hp,
          @List.find?_cons_of_pos (J × J) (fun q => q.1 == k) (p.1, objSet p.2 f v)
            (List.map (fun q => if q.1 == k then (q.1, objSet q.2 f v) else q) m) hp,
          @List.find?_cons_of_pos (J × J) (fun q => q.1 == k) p m hp]
        rfl
      · rw [List.map_cons, if_neg hp,
          @List.find?_cons_of_neg (J × J) (fun q => q.1 == k) p
            (List.map (fun q => if q.1 == k then (q.1, objSet q.2 f v) else q) m) hp,
          @List.find?_cons_of_neg (J × J) (fun q => q.1 == k) p m hp, ih]

theorem find?_map_modify_ne (k : J) (f : String) (v : J) (k' : J) (h : k' ≠ k) :
    ∀ (m : List (J × J)),
    (m.map (fun p => if p.1 == k then (p.1, objSet p.2 f v) else p)).find? (fun p => p.1 == k') =
      m.find? (fun p => p.1 == k')
  | [] => rfl
  | p :: m => by
      have ih := find?_map_modify_ne k f v k' h m
      by_cases hp : (p.1 == k) = true
      · have hpk : p.1 = k := eq_of_beq hp
        have hne : ¬(p.1 == k') = true := by
          rw [hpk]; simp [beq_eq_false_iff_ne.mpr fun he => h he.symm]
        rw [List.map_cons, if_pos hp,
          @List.find?_cons_of_neg (J × J) (fun q => q.1 == k') (p.1, objSet p.2 f v)
            (List.map (fun q => if q.1 == k then (q.1, objSet q.2 f v) else q) m) hne,
          @List.find?_cons_of_neg (J × J) (fun q => q.1 == k') p m hne, ih]
      · rw [List.map_cons, if_neg hp]
        by_cases hq : (p.1 == k') = true
        · rw [@List.find?_cons_of_pos (J × J) (fun q => q.1 == k') p
            (List.map (fun q => if q.1 == k then (q.1, objSet q.2 f v) else q) m) hq,
            @List.find?_cons_of_pos (J × J) (fun q => q.1 == k') p m hq]
        · rw [@List.find?_cons_of_neg (J × J) (fun q => q.1 == k') p
            (List.map (fun q => if q.1 == k then (q.1, objSet q.2 f v) else q) m) hq,
            @List.find?_cons_of_neg (J × J) (fun q => q.1 == k') p m hq, ih]

theorem find?_not_mem (k : J) (m : List (J × J)) (h : dictMem m k = false) :
    m.find? (fun p => p.1 == k) = none := by
  rw [List.find?_eq_none]
  intro p hp hk
  rw [dictMem, List.any_eq_false] at h
  exact absurd hk (h p hp)

theorem dictGet?_dictSet_self (m : List (J × J)) (k v : J) :
    dictGet? (dictSet m k v) k = some v := by
  unfold dictSet
  by_cases hmem : dictMem m k
  · rw [if_pos hmem, dictGet?, find?_map_replace, if_pos hmem]
    rfl
  · rw [if_neg hmem, dictGet?, List.find?_append, find?_not_mem k m (by simpa using hmem),
      List.find?_cons_of_pos _ (by exact beq_self_eq_true k)]
    rfl

theorem dictGet?_dictSet_ne (m : List (J × J)) (k v k' : J) (h : k' ≠ k) :
    dictGet? (dictSet m k v) k' = dictGet? m k' := by
  unfold dictSet
  by_cases hmem : dictMem m k
  · rw [if_pos hmem, dictGet?, dictGet?, find?_map_replace_ne k v k' h]
  · rw [if_neg hmem, dictGet?, dictGet?, List.find?_append]
    have hsing : (([((k, v) : J × J)]).find? (fun p => p.1 == k')) = none := by
      simp [List.find?_cons, beq_eq_false_iff_ne.mpr fun he => h he.symm]
    rw [hsing]
    cases m.find? (fun p => p.1 == k') <;> rfl

theorem dictGet?_dictModify_self (m : List (J × J)) (k : J) (f : String) (v : J) :
    dictGet? (dictModify m k f v) k = (dictGet? m k).map (fun t => objSet t f v) := by
  rw [dictModify, dictGet?, dictGet?, find?_map_modify]
  cases m.find? (fun p => p.1 == k) <;> rfl

theorem dictGet?_dictModify_ne (m : List (J × J)) (k : J) (f : String) (v : J) (k' : J)
    (h : k' ≠ k) :
    dictGet? (dictModify m k f v) k' = dictGet? m k' := by
  rw [dictModify, dictGet?, dictGet?, find?_map_modify_ne k f v k' h]

theorem length_dictSet_mem (m : List (J × J)) (k v : J) (h : dictMem m k = true) :
    (dictSet m k v).length = m.length := by
  rw [dictSet, if_pos h, List.length_map]

theorem length_dictSet_not_mem (m : List (J × J)) (k v : J) (h : dictMem m k = false) :
    (dictSet m k v).length = m.length + 1 := by
  rw [dictSet, if_neg (by simp [h]), List.length_append]
  rfl

theorem length_dictModify (m : List (J × J)) (k : J) (f : String) (v : J) :
    (dictModify m k f v).length = m.length := by
  rw [dictModify, List.length_map]

theorem dictMem_false_iff (m : List (J × J)) (k : J) :
    dictMem m k = false ↔ dictGet? m k = none := by
  constructor
  · intro h
    rw [dictGet?, find?_not_mem k m h]
    rfl
  · intro h
    have h' : m.find? (fun p => p.1 == k) = none := by
      cases hf : m.find? (fun p => p.1 == k) with
      | none => rfl
      | some p => rw [dictGet?, hf] at h; exact absurd h (by simp)
    rw [dictMem, List.any_eq_false]
    exact List.find?_eq_none.mp h'

theorem lookup_map_replace_self (f : String) (v : J) : ∀ (kvs : List (String × J)),
    kvs.any (fun p => p.1 == f) = true →
    ((kvs.map (fun p => if p.1 == f then (f, v) else p)).lookup f) = some v
  | (key, val) :: kvs, h => by
      by_cases hp : (key == f) = true
      · rw [List.map_cons]
        show List.lookup f ((if ((key, val) : String × J).1 == f then (f, v)
          else (key, val)) :: _) = some v
        rw [if_pos hp, List.lookup_cons]
        simp
      · have hp' : (key == f) = false := by simpa using hp
        rw [List.any_cons] at h
        simp only [hp', Bool.false_or] at h
        have ih := lookup_map_replace_self f v kvs h
        rw [List.map_cons]
        show List.lookup f ((if ((key, val) : String × J).1 == f then (f, v)
          else (key, val)) :: _) = some v
        rw [if_neg (by simpa using hp'), List.lookup_cons]
        have hkf : key ≠ f := by
          intro he
          rw [he] at hp'
          simp at hp'
        have hfp : (f == key) = false := beq_eq_false_iff_ne.mpr fun he => hkf he.symm
        simp only [hfp]
        exact ih

theorem lookup_append_new (f : String) (v : J) : ∀ (kvs : List (String × J)),
    kvs.any (fun p => p.1 == f) = false →
    ((kvs ++ [(f, v)]).lookup f) = some v
  | [], _ => by
      rw [List.nil_append, List.lookup_cons]
      simp
  | (key, val) :: kvs, h => by
      rw [List.any_cons, Bool.or_eq_false_iff] at h
      have ih := lookup_append_new f v kvs h.2
      have hp' : (key == f) = false := h.1
      rw [List.cons_append, List.lookup_cons]
      have hkf : key ≠ f := by
        intro he
        rw [he] at hp'
        simp at hp'
      have hfp : (f == key) = false := beq_eq_false_iff_ne.mpr fun he => hkf he.symm
      simp only [hfp]
      exact ih

theorem lookup_map_replace_ne (f : String) (v : J) (g : String) (h : g ≠ f) :
    ∀ (kvs : List (String × J)),
    ((kvs.map (fun p => if p.1 == f then (f, v) else p)).lookup g) = kvs.lookup g
  | [] => rfl
  | (key, val) :: kvs => by
      have ih := lookup_map_replace_ne f v g h kvs
      by_cases hp : (key == f) = true
      · have hgf : (g == f) = false := beq_eq_false_iff_ne.mpr h
        have hgk : (g == key) = false := by rw [(eq_of_beq hp : key = f)]; exact hgf
        rw [List.map_cons]
        show List.lookup g ((if ((key, val) : String × J).1 == f then (f, v)
          else (key, val)) :: _) = _
        rw [if_pos hp, List.lookup_cons, List.lookup_cons]
        simp only [hgf, hgk]
        exact ih
      · rw [List.map_cons]
        show List.lookup g ((if ((key, val) : String × J).1 == f then (f, v)
          else (key, val)) :: _) = _
        rw [if_neg hp, List.lookup_cons, List.lookup_cons]
        cases hq : g == key
        · exact ih
        · rfl

theorem lookup_append_ne (f : String) (v : J) (g : String) (h : g ≠ f) :
    ∀ (kvs : List (String × J)),
    ((kvs ++ [(f, v)]).lookup g) = kvs.lookup g
  | [] => by
      rw [List.nil_append, List.lookup_cons]
      simp [beq_eq_false_iff_ne.mpr h]
  | (key, val) :: kvs => by
      have ih := lookup_append_ne f v g h kvs
      rw [List.cons_append, List.lookup_cons, List.lookup_cons]
      cases hq : g == key
      · exact ih
      · rfl

theorem objLookup_objSet_self (t : J) (f : String) (v : J) (h : isObjB t = true) :
    objLookup (objSet t f v) f = some v := by
  cases t with
  | obj kvs =>
      show objLookup (J.obj (if kvs.any (fun p => p.1 == f) then
        kvs.map (fun p => if p.1 == f then (f, v) else p) else kvs ++ [(f, v)])) f = some v
      by_cases hmem : kvs.any (fun p => p.1 == f)
      · rw [if_pos hmem, objLookup, lookup_map_replace_self f v kvs hmem]
      · rw [if_neg hmem, objLookup, lookup_append_new f v kvs (eq_false_of_not_true hmem)]
  | null => exact absurd h (by simp [isObjB])
  | bool b => exact absurd h (by simp [isObjB])
  | num n => exact absurd h (by simp [isObjB])
  | str s => exact absurd h (by simp [isObjB])
  | arr xs => exact absurd h (by simp [isObjB])

theorem objLookup_objSet_ne (t : J) (f : String) (v : J) (g : String) (h : g ≠ f) :
    objLookup (objSet t f v) g = objLookup t g := by
  cases t with
  | obj kvs =>
      show objLookup (J.obj (if kvs.any (fun p => p.1 == f) then
        kvs.map (fun p => if p.1 == f then (f, v) else p) else kvs ++ [(f, v)])) g
          = objLookup (J.obj kvs) g
      by_cases hmem : kvs.any (fun p => p.1 == f)
      · rw [if_pos hmem, objLookup, objLookup, lookup_map_replace_ne f v g h kvs]
      · rw [if_neg hmem, objLookup, objLookup, lookup_append_ne f v g h kvs]
  | null => rfl
  | bool b => rfl
  | num n => rfl
  | str s => rfl
  | arr xs => rfl

theorem isObjB_objSet (t : J) (f : String) (v : J) : isObjB (objSet t f v) = isObjB t := by
  cases t <;> rfl

/-- The `TaskUpdate` branch body of the reduction loop, named so that theorems
can analyse it in isolation. -/
def taskUpdateStep (st : LState) (ikvs : List (String × J)) : Except Unit LState :=
  let task_id := (ikvs.lookup "taskId").getD (.str "")
  if truthy task_id then
    if hashable task_id then
      let tasks1 :=
        if dictMem st.tasks task_id then st.tasks
        else
          dictSet st.tasks task_id
            (.obj [("subject", (ikvs.lookup "subject").getD (.str ("Task " ++ pyStr task_id))),
                   ("description", (ikvs.lookup "description").getD (.str "")),
                   ("status", .str "pending")])
      let tasks2 := match ikvs.lookup "status" with
        | some v => dictModify tasks1 task_id "status" v
        | none => tasks1
      let tasks3 := match ikvs.lookup "subject" with
        | some v => dictModify tasks2 task_id "subject" v
        | none => tasks2
      let tasks4 := match ikvs.lookup "description" with
        | some v => dictModify tasks3 task_id "description" v
        | none => tasks3
      .ok { st with tasks := tasks4 }
    else .error ()
  else .ok st

/-- The dict that the `TaskCreate` branch stores for the fresh id. -/
def createdTask (ikvs : List (String × J)) : J :=
  .obj [("subject", (ikvs.lookup "subject").getD (.str "")),
        ("description", (ikvs.lookup "description").getD (.str "")),
        ("status", .str "pending")]

theorem applyToolCall_eq_todoWrite (st : LState) (ikvs : List (String × J)) :
    applyToolCall st (J.str "TodoWrite", J.obj ikvs) =
      .ok (if truthy ((ikvs.lookup "todos").getD (.arr []))
           then { st with latest_todos := (ikvs.lookup "todos").getD (.arr []) } else st) := rfl

theorem applyToolCall_eq_taskCreate (st : LState) (ikvs : List (String × J)) :
    applyToolCall st (J.str "TaskCreate", J.obj ikvs) =
      .ok { st with
            tasks := dictSet st.tasks (.str (toString st.next_task_id)) (createdTask ikvs),
            next_task_id := st.next_task_id + 1 } := rfl

theorem applyToolCall_eq_taskUpdate (st : LState) (ikvs : List (String × J)) :
    applyToolCall st (J.str "TaskUpdate", J.obj ikvs) = taskUpdateStep st ikvs := rfl

theorem applyToolCall_eq_other (st : LState) (tc : J × J)
    (h1 : (tc.1 == J.str "TodoWrite") = false)
    (h2 : (tc.1 == J.str "TaskCreate") = false)
    (h3 : (tc.1 == J.str "TaskUpdate") = false) :
    applyToolCall st tc = .ok st := by
  unfold applyToolCall
  rw [h1, h2, h3]
  rfl

theorem applyToolCall_error_of_not_obj (st : LState) (n i : J)
    (hn : (n == J.str "TodoWrite") = true ∨ (n == J.str "TaskCreate") = true ∨
      (n == J.str "TaskUpdate") = true)
    (hi : isObjB i = false) :
    applyToolCall st (n, i) = .error () := by
  unfold applyToolCall
  rcases hn with hn | hn | hn
  · rw [hn]
    cases i <;> first | rfl | exact absurd hi (by simp [isObjB])
  · by_cases h1 : (n == J.str "TodoWrite") = true
    · rw [h1]
      cases i <;> first | rfl | exact absurd hi (by simp [isObjB])
    · rw [eq_false_of_not_true h1, hn]
      cases i <;> first | rfl | exact absurd hi (by simp [isObjB])
  · by_cases h1 : (n == J.str "TodoWrite") = true
    · rw [h1]
      cases i <;> first | rfl | exact absurd hi (by simp [isObjB])
    · by_cases h2 : (n == J.str "TaskCreate") = true
      · rw [eq_false_of_not_true h1, h2]
        cases i <;> first | rfl | exact absurd hi (by simp [isObjB])
      · rw [eq_false_of_not_true h1, eq_false_of_not_true h2, hn]
        cases i <;> first | rfl | exact absurd hi (by simp [isObjB])

/-- Exhaustive shape analysis of a successful reduction step. -/
theorem applyToolCall_ok_shape (st : LState) (tc : J × J) (st' : LState)
    (h : applyToolCall st tc = .ok st') :
    (∃ ikvs, tc = (J.str "TodoWrite", J.obj ikvs) ∧
       st' = (if truthy ((ikvs.lookup "todos").getD (.arr []))
              then { st with latest_todos := (ikvs.lookup "todos").getD (.arr []) } else st)) ∨
    (∃ ikvs, tc = (J.str "TaskCreate", J.obj ikvs) ∧
       st' = { st with
               tasks := dictSet st.tasks (.str (toString st.next_task_id)) (createdTask ikvs),
               next_task_id := st.next_task_id + 1 }) ∨
    (∃ ikvs, tc = (J.str "TaskUpdate", J.obj ikvs) ∧ taskUpdateStep st ikvs = .ok st') ∨
    ((tc.1 == J.str "TodoWrite") = false ∧ (tc.1 == J.str "TaskCreate") = false ∧
      (tc.1 == J.str "TaskUpdate") = false ∧ st' = st) := by
  obtain ⟨n, i⟩ := tc
  by_cases h1 : (n == J.str "TodoWrite") = true
  · left
    have hn : n = J.str "TodoWrite" := eq_of_beq h1
    subst hn
    cases i with
    | obj ikvs =>
        refine ⟨ikvs, rfl, ?_⟩
        rw [applyToolCall_eq_todoWrite] at h
        exact (Except.ok.inj h).symm
    | null => exact absurd ((applyToolCall_error_of_not_obj st _ .null (Or.inl h1) rfl).symm.trans h) (by simp)
    | bool b => exact absurd ((applyToolCall_error_of_not_obj st _ (.bool b) (Or.inl h1) rfl).symm.trans h) (by simp)
    | num x => exact absurd ((applyToolCall_error_of_not_obj st _ (.num x) (Or.inl h1) rfl).symm.trans h) (by simp)
    | str s => exact absurd ((applyToolCall_error_of_not_obj st _ (.str s) (Or.inl h1) rfl).symm.trans h) (by simp)
    | arr xs => exact absurd ((applyToolCall_error_of_not_obj st _ (.arr xs) (Or.inl h1) rfl).symm.trans h) (by simp)
  · by_cases h2 : (n == J.str "TaskCreate") = true
    · right; left
      have hn : n = J.str "TaskCreate" := eq_of_beq h2
      subst hn
      cases i with
      | obj ikvs =>
          refine ⟨ikvs, rfl, ?_⟩
          rw [applyToolCall_eq_taskCreate] at h
          exact (Except.ok.inj h).symm
      | null => exact absurd ((applyToolCall_error_of_not_obj st _ .null (Or.inr (Or.inl h2)) rfl).symm.trans h) (by simp)
      | bool b => exact absurd ((applyToolCall_error_of_not_obj st _ (.bool b) (Or.inr (Or.inl h2)) rfl).symm.trans h) (by simp)
      | num x => exact absurd ((applyToolCall_error_of_not_obj st _ (.num x) (Or.inr (Or.inl h2)) rfl).symm.trans h) (by simp)
      | str s => exact absurd ((applyToolCall_error_of_not_obj st _ (.str s) (Or.inr (Or.inl h2)) rfl).symm.trans h) (by simp)
      | arr xs => exact absurd ((applyToolCall_error_of_not_obj st _ (.arr xs) (Or.inr (Or.inl h2)) rfl).symm.trans h) (by simp)
    · by_cases h3 : (n == J.str "TaskUpdate") = true
      · right; right; left
        have hn : n = J.str "TaskUpdate" := eq_of_beq h3
        subst hn
        cases i with
        | obj ikvs =>
            refine ⟨ikvs, rfl, ?_⟩
            rw [applyToolCall_eq_taskUpdate] at h
            exact h
        | null => exact absurd ((applyToolCall_error_of_not_obj st _ .null (Or.inr (Or.inr h3)) rfl).symm.trans h) (by simp)
        | bool b => exact absurd ((applyToolCall_error_of_not_obj st _ (.bool b) (Or.inr (Or.inr h3)) rfl).symm.trans h) (by simp)
        | num x => exact absurd ((applyToolCall_error_of_not_obj st _ (.num x) (Or.inr (Or.inr h3)) rfl).symm.trans h) (by simp)
        | str s => exact absurd ((applyToolCall_error_of_not_obj st _ (.str s) (Or.inr (Or.inr h3)) rfl).symm.trans h) (by simp)
        | arr xs => exact absurd ((applyToolCall_error_of_not_obj st _ (.arr xs) (Or.inr (Or.inr h3)) rfl).symm.trans h) (by simp)
      · right; right; right
        have := applyToolCall_eq_other st (n, i)
          (eq_false_of_not_true h1) (eq_false_of_not_true h2) (eq_false_of_not_true h3)
        rw [this] at h
        exact ⟨eq_false_of_not_true h1, eq_false_of_not_true h2, eq_false_of_not_true h3,
          (Except.ok.inj h).symm⟩

/-- Well-formedness of a value stored in the task dictionary: it is a dict
carrying all three keys the loop later reads.  Every value the loop ever
stores has this shape. -/
def taskWF (t : J) : Bool :=
  isObjB t && (objLookup t "subject").isSome && (objLookup t "description").isSome &&
    (objLookup t "status").isSome

def TasksWF (m : List (J × J)) : Prop := ∀ p ∈ m, taskWF p.2 = true

theorem mem_dictSet {q : J × J} {m : List (J × J)} {k v : J} (h : q ∈ dictSet m k v) :
    q = (k, v) ∨ q ∈ m := by
  unfold dictSet at h
  by_cases hmem : dictMem m k
  · rw [if_pos hmem] at h
    rcases List.mem_map.mp h with ⟨p, hp, he⟩
    by_cases hpk : (p.1 == k) = true
    · rw [if_pos hpk] at he
      exact Or.inl he.symm
    · rw [if_neg hpk] at he
      exact Or.inr (he ▸ hp)
  · rw [if_neg hmem] at h
    rcases List.mem_append.mp h with h | h
    · exact Or.inr h
    · exact Or.inl (List.mem_singleton.mp h)

theorem mem_dictModify {q : J × J} {m : List (J × J)} {k : J} {f : String} {v : J}
    (h : q ∈ dictModify m k f v) :
    q ∈ m ∨ ∃ p ∈ m, q = (p.1, objSet p.2 f v) := by
  unfold dictModify at h
  rcases List.mem_map.mp h with ⟨p, hp, he⟩
  by_cases hpk : (p.1 == k) = true
  · rw [if_pos hpk] at he
    exact Or.inr ⟨p, hp, he.symm⟩
  · rw [if_neg hpk] at he
    exact Or.inl (he ▸ hp)

theorem isObjB_of_lookup_isSome {t : J} {g : String} (h : (objLookup t g).isSome = true) :
    isObjB t = true := by
  cases t <;> first | rfl | exact absurd h (by simp [objLookup])

theorem isSome_objLookup_objSet (t : J) (f : String) (v : J) (g : String)
    (h : (objLookup t g).isSome = true) :
    (objLookup (objSet t f v) g).isSome = true := by
  by_cases hg : g = f
  · subst hg
    rw [objLookup_objSet_self t g v (isObjB_of_lookup_isSome h)]
    rfl
  · rw [objLookup_objSet_ne t f v g hg]
    exact h

theorem taskWF_objSet (t : J) (f : String) (v : J) (h : taskWF t = true) :
    taskWF (objSet t f v) = true := by
  unfold taskWF at h ⊢
  simp only [Bool.and_eq_true] at h ⊢
  exact ⟨⟨⟨(isObjB_objSet t f v).trans h.1.1.1,
      isSome_objLookup_objSet t f v "subject" h.1.1.2⟩,
      isSome_objLookup_objSet t f v "description" h.1.2⟩,
      isSome_objLookup_objSet t f v "status" h.2⟩

theorem TasksWF_dictSet {m : List (J × J)} {k v : J} (hm : TasksWF m) (hv : taskWF v = true) :
    TasksWF (dictSet m k v) := by
  intro q hq
  rcases mem_dictSet hq with he | hmem
  · rw [he]
    exact hv
  · exact hm q hmem

theorem TasksWF_dictModify {m : List (J × J)} {k : J} {f : String} {v : J} (hm : TasksWF m) :
    TasksWF (dictModify m k f v) := by
  intro q hq
  rcases mem_dictModify hq with hmem | ⟨p, hp, he⟩
  · exact hm q hmem
  · rw [he]
    exact taskWF_objSet p.2 f v (hm p hp)

theorem taskWF_createdTask (ikvs : List (String × J)) : taskWF (createdTask ikvs) = true := rfl

theorem TasksWF_matchModify (m : List (J × J)) (o : Option J) (k : J) (f : String)
    (hm : TasksWF m) :
    TasksWF (match o with | some v => dictModify m k f v | none => m) := by
  cases o
  · exact hm
  · exact TasksWF_dictModify hm

theorem taskUpdateStep_ok_inv (st : LState) (ikvs : List (String × J)) (st' : LState)
    (h : taskUpdateStep st ikvs = .ok st') :
    st'.latest_todos = st.latest_todos ∧ st'.next_task_id = st.next_task_id ∧
      (TasksWF st.tasks → TasksWF st'.tasks) := by
  unfold taskUpdateStep at h
  by_cases ht : truthy ((ikvs.lookup "taskId").getD (.str "")) = true
  · rw [if_pos ht] at h
    by_cases hh : hashable ((ikvs.lookup "taskId").getD (.str "")) = true
    · rw [if_pos hh] at h
      replace h := (Except.ok.inj h).symm
      subst h
      refine ⟨rfl, rfl, fun hm => ?_⟩
      have h1 : TasksWF (if dictMem st.tasks ((ikvs.lookup "taskId").getD (.str ""))
          then st.tasks
          else dictSet st.tasks ((ikvs.lookup "taskId").getD (.str ""))
            (.obj [("subject", (ikvs.lookup "subject").getD
                (.str ("Task " ++ pyStr ((ikvs.lookup "taskId").getD (.str ""))))),
              ("description", (ikvs.lookup "description").getD (.str "")),
              ("status", .str "pending")])) := by
        split
        · exact hm
        · exact TasksWF_dictSet hm rfl
      exact TasksWF_matchModify _ _ _ _ (TasksWF_matchModify _ _ _ _
        (TasksWF_matchModify _ _ _ _ h1))
    · rw [if_neg hh] at h
      exact absurd h (by simp)
  · rw [if_neg ht] at h
    replace h := (Except.ok.inj h).symm
    subst h
    exact ⟨rfl, rfl, fun hm => hm⟩

/-- A bulk-write event that replaces the accumulator: named `"TodoWrite"`,
dict payload, truthy `todos` value. -/
def qualifyingTW (tc : J × J) : Bool :=
  tc.1 == J.str "TodoWrite" &&
    (match tc.2 with
     | .obj ikvs => truthy ((ikvs.lookup "todos").getD (.arr []))
     | _ => false)

/-- The `todos` value of a bulk-write event's payload. -/
def twPayload (tc : J × J) : J :=
  match tc.2 with
  | .obj ikvs => (ikvs.lookup "todos").getD (.arr [])
  | _ => .arr []

theorem applyToolCall_latest (st : LState) (tc : J × J) (st' : LState)
    (h : applyToolCall st tc = .ok st') :
    st'.latest_todos = (if qualifyingTW tc then twPayload tc else st.latest_todos) := by
  rcases applyToolCall_ok_shape st tc st' h with ⟨ikvs, he, hst⟩ | ⟨ikvs, he, hst⟩ |
    ⟨ikvs, he, hst⟩ | ⟨h1, h2, h3, hst⟩
  · subst he
    by_cases ht : truthy ((ikvs.lookup "todos").getD (.arr [])) = true
    · rw [if_pos ht] at hst
      subst hst
      have hq : qualifyingTW (J.str "TodoWrite", J.obj ikvs) = true := by
        simp [qualifyingTW, ht]
      rw [if_pos hq, twPayload]
    · rw [if_neg ht] at hst
      subst hst
      have hq : qualifyingTW (J.str "TodoWrite", J.obj ikvs) = false := by
        simp [qualifyingTW]
        exact eq_false_of_not_true ht
      rw [hq, if_neg (by simp)]
  · subst he
    subst hst
    rw [if_neg (by simp [qualifyingTW])]
  · subst he
    rw [if_neg (by simp [qualifyingTW])]
    exact (taskUpdateStep_ok_inv st ikvs st' hst).1
  · subst hst
    rw [if_neg (by simp [qualifyingTW, h1])]

theorem applyToolCall_TasksWF (st : LState) (tc : J × J) (st' : LState)
    (h : applyToolCall st tc = .ok st') (hm : TasksWF st.tasks) : TasksWF st'.tasks := by
  rcases applyToolCall_ok_shape st tc st' h with ⟨ikvs, he, hst⟩ | ⟨ikvs, he, hst⟩ |
    ⟨ikvs, he, hst⟩ | ⟨h1, h2, h3, hst⟩
  · subst hst
    split
    · exact hm
    · exact hm
  · subst hst
    exact TasksWF_dictSet hm (taskWF_createdTask ikvs)
  · exact (taskUpdateStep_ok_inv st ikvs st' hst).2.2 hm
  · subst hst
    exact hm

theorem foldlM_ok_inv {α β : Type} (g : β → α → Except Unit β) (P : β → Prop)
    (hstep : ∀ st x st', g st x = .ok st' → P st → P st') :
    ∀ (l : List α) (st st' : β), l.foldlM g st = .ok st' → P st → P st'
  | [], st, st', h, hp => by
      rw [List.foldlM_nil] at h
      exact (Except.ok.inj h) ▸ hp
  | x :: l, st, st', h, hp => by
      rw [List.foldlM_cons] at h
      cases hx : g st x with
      | error e =>
          rw [hx] at h
          exact Except.noConfusion h
      | ok st₁ =>
          rw [hx] at h
          exact foldlM_ok_inv g P hstep l st₁ st' h (hstep st x st₁ hx hp)

theorem foldlM_ok_progress {α β : Type} (g : β → α → Except Unit β) (Q : α → Prop)
    (P : β → Prop)
    (hstep : ∀ st x, Q x → P st → ∃ st', g st x = .ok st' ∧ P st') :
    ∀ (l : List α) (st : β), (∀ x ∈ l, Q x) → P st →
      ∃ st', l.foldlM g st = .ok st' ∧ P st'
  | [], st, _, hp => ⟨st, by rw [List.foldlM_nil]; rfl, hp⟩
  | x :: l, st, hq, hp => by
      obtain ⟨st₁, hx, hp₁⟩ := hstep st x (hq x (List.mem_cons_self x l)) hp
      obtain ⟨st', hrest, hp'⟩ := foldlM_ok_progress g Q P hstep l st₁
        (fun y hy => hq y (List.mem_cons_of_mem x hy)) hp₁
      refine ⟨st', ?_, hp'⟩
      rw [List.foldlM_cons, hx]
      exact hrest

theorem foldlM_items {α : Type} (g : α → Except Unit (List Item)) (f : α → List Item) :
    ∀ (l : List α), (∀ x ∈ l, g x = .ok (f x)) → ∀ (acc : List Item),
      l.foldlM (fun acc x => (g x).map (fun its => acc ++ its)) acc =
        .ok (acc ++ (l.map f).flatten)
  | [], _, acc => by
      rw [List.foldlM_nil, List.map_nil, List.flatten_nil, List.append_nil]
      rfl
  | x :: l, hg, acc => by
      have hx := hg x (List.mem_cons_self x l)
      have ih := foldlM_items g f l (fun y hy => hg y (List.mem_cons_of_mem x hy)) (acc ++ f x)
      have e : ((acc ++ f x) ++ ((l.map f).flatten)) = acc ++ (((x :: l).map f).flatten) := by
        rw [List.map_cons, List.flatten_cons, List.append_assoc]
      simp only [List.foldlM_cons]
      rw [hx]
      exact ih.trans (congrArg Except.ok e)

theorem flatten_map_if {α β : Type} (p : α → Bool) (f : α → β) : ∀ (l : List α),
    (l.map (fun x => if p x then [] else [f x])).flatten =
      (l.filter (fun x => !p x)).map f
  | [] => rfl
  | x :: l => by
      have ih := flatten_map_if p f l
      by_cases hp : p x = true
      · simp [List.map_cons, if_pos hp, List.flatten_cons, ih, List.filter_cons, hp]
      · have hp' : p x = false := eq_false_of_not_true hp
        simp [List.map_cons, List.flatten_cons, ih, List.filter_cons, hp']

/-- `latest_todos` is a decoded list whose elements are all dicts — the shape
under which the final todo loop cannot raise. -/
def objsOnly : J → Bool
  | .arr ts => ts.all isObjB
  | _ => false

/-- Whether a legacy todo survives into the incomplete list
(`status != "completed"`). -/
def todoIncluded (t : J) : Bool :=
  !(((objLookup t "status").getD (.str "")) == J.str "completed")

/-- The incomplete item built from one legacy todo dict. -/
def mkTodoItem (t : J) : Item :=
  { status := (objLookup t "status").getD (.str ""),
    content := (objLookup t "content").getD (.str ""),
    source := "todo", task_id := none }

def todoPure (t : J) : List Item :=
  if ((objLookup t "status").getD (.str "")) == J.str "completed" then [] else [mkTodoItem t]

/-- Whether a ledger task survives into the incomplete list. -/
def taskIncluded (p : J × J) : Bool :=
  !(((objLookup p.2 "status").getD (.str "pending")) == J.str "completed")

/-- The incomplete item built from one ledger task entry. -/
def mkTaskItem (p : J × J) : Item :=
  { status := (objLookup p.2 "status").getD (.str "pending"),
    content := pyOr ((objLookup p.2 "subject").getD (.str ""))
      ((objLookup p.2 "description").getD (.str ("Task " ++ pyStr p.1))),
    source := "task", task_id := some p.1 }

def taskPure (p : J × J) : List Item :=
  if ((objLookup p.2 "status").getD (.str "pending")) == J.str "completed" then []
  else [mkTaskItem p]

theorem todoItems1_eq (t : J) (h : isObjB t = true) : todoItems1 t = .ok (todoPure t) := by
  cases t with
  | obj kvs =>
      simp only [todoItems1, todoPure, mkTodoItem, objLookup]
  | null => exact absurd h (by simp [isObjB])
  | bool b => exact absurd h (by simp [isObjB])
  | num n => exact absurd h (by simp [isObjB])
  | str s => exact absurd h (by simp [isObjB])
  | arr xs => exact absurd h (by simp [isObjB])

theorem taskItems1_eq (p : J × J) (h : isObjB p.2 = true) :
    taskItems1 p.1 p.2 = .ok (taskPure p) := by
  obtain ⟨tid, t⟩ := p
  cases t with
  | obj kvs =>
      simp only [taskItems1, taskPure, mkTaskItem, objLookup]
      split
      · rfl
      · rfl
  | null => exact absurd h (by simp [isObjB])
  | bool b => exact absurd h (by simp [isObjB])
  | num n => exact absurd h (by simp [isObjB])
  | str s => exact absurd h (by simp [isObjB])
  | arr xs => exact absurd h (by simp [isObjB])

theorem applyLine_TasksWF (st : LState) (line : Option J) (st' : LState)
    (h : applyLine st line = .ok st') (hm : TasksWF st.tasks) : TasksWF st'.tasks := by
  cases line with
  | none => exact (Except.ok.inj h) ▸ hm
  | some entry =>
      replace h : (match extract_tool_calls_from_entry entry with
        | Except.error e => Except.error e
        | Except.ok tcs => List.foldlM applyToolCall st tcs) = Except.ok st' := h
      cases hx : extract_tool_calls_from_entry entry with
      | error e =>
          rw [hx] at h
          exact Except.noConfusion h
      | ok tcs =>
          rw [hx] at h
          exact foldlM_ok_inv applyToolCall (fun s => TasksWF s.tasks)
            applyToolCall_TasksWF tcs st st' h hm

theorem runLines_TasksWF (lines : List (Option J)) (st : LState)
    (h : runLines lines = .ok st) : TasksWF st.tasks := by
  unfold runLines at h
  exact foldlM_ok_inv applyLine (fun s => TasksWF s.tasks) applyLine_TasksWF lines initState st h
    (fun p hp => absurd hp (List.not_mem_nil p))

theorem buildTodoItems_eq (ts : List J) (h : ∀ t ∈ ts, isObjB t = true) :
    buildTodoItems (.arr ts) = .ok ((ts.filter todoIncluded).map mkTodoItem) := by
  show ts.foldlM (fun acc todo => (todoItems1 todo).map (fun its => acc ++ its)) [] = _
  rw [foldlM_items todoItems1 todoPure ts (fun t ht => todoItems1_eq t (h t ht)) [],
    List.nil_append]
  exact congrArg Except.ok
    (flatten_map_if (fun t => ((objLookup t "status").getD (.str "")) == J.str "completed")
      mkTodoItem ts)

theorem buildTaskItems_eq (m : List (J × J)) (h : TasksWF m) :
    m.foldlM (fun acc p => (taskItems1 p.1 p.2).map (fun its => acc ++ its)) [] =
      .ok ((m.filter taskIncluded).map mkTaskItem) := by
  rw [foldlM_items (fun p => taskItems1 p.1 p.2) taskPure m
    (fun p hp => taskItems1_eq p (by
      have := h p hp
      unfold taskWF at this
      simp only [Bool.and_eq_true] at this
      exact this.1.1.1)) [], List.nil_append]
  exact congrArg Except.ok
    (flatten_map_if
      (fun (p : J × J) => ((objLookup p.2 "status").getD (.str "pending")) == J.str "completed")
      mkTaskItem m)

theorem buildItems_eq (st : LState) (ts : List J)
    (hm : TasksWF st.tasks) (hlt : st.latest_todos = J.arr ts)
    (hobj : ∀ t ∈ ts, isObjB t = true) :
    buildItems st = .ok ((ts.filter todoIncluded).map mkTodoItem ++
      (st.tasks.filter taskIncluded).map mkTaskItem) := by
  unfold buildItems
  rw [hlt, buildTodoItems_eq ts hobj, buildTaskItems_eq st.tasks hm]

theorem find_incomplete_items_eq (lines : List (Option J)) (st : LState) (ts : List J)
    (h : runLines lines = .ok st) (hlt : st.latest_todos = J.arr ts)
    (hobj : ∀ t ∈ ts, isObjB t = true) :
    find_incomplete_items (some lines) = .ok ((ts.filter todoIncluded).map mkTodoItem ++
      (st.tasks.filter taskIncluded).map mkTaskItem) := by
  show (match runLines lines with
    | Except.error e => Except.error e
    | Except.ok st => buildItems st) = _
  rw [h]
  exact buildItems_eq st ts (runLines_TasksWF lines st h) hlt hobj

/-- One optional field-overwrite pass of the update loop
(`if "f" in tool_input: tasks[task_id]["f"] = tool_input["f"]`). -/
def stepField (m : List (J × J)) (k : J) (f : String) (o : Option J) : List (J × J) :=
  match o with
  | some v => dictModify m k f v
  | none => m

def applyField (t : J) (f : String) (o : Option J) : J :=
  match o with
  | some v => objSet t f v
  | none => t

theorem length_stepField (m : List (J × J)) (k : J) (f : String) (o : Option J) :
    (stepField m k f o).length = m.length := by
  cases o
  · rfl
  · exact length_dictModify m k f _

theorem dictGet?_stepField_ne (m : List (J × J)) (k : J) (f : String) (o : Option J)
    (k' : J) (h : k' ≠ k) : dictGet? (stepField m k f o) k' = dictGet? m k' := by
  cases o
  · rfl
  · exact dictGet?_dictModify_ne m k f _ k' h

theorem dictGet?_stepField_self (m : List (J × J)) (k : J) (f : String) (o : Option J) :
    dictGet? (stepField m k f o) k = (dictGet? m k).map (fun t => applyField t f o) := by
  cases o
  · show dictGet? m k = (dictGet? m k).map (fun t => t)
    cases dictGet? m k <;> rfl
  · exact dictGet?_dictModify_self m k f _

theorem isObjB_applyField (t : J) (f : String) (o : Option J) :
    isObjB (applyField t f o) = isObjB t := by
  cases o
  · rfl
  · exact isObjB_objSet t f _

theorem objLookup_applyField_self (t : J) (f : String) (o : Option J) (h : isObjB t = true) :
    objLookup (applyField t f o) f =
      (match o with | some v => some v | none => objLookup t f) := by
  cases o
  · rfl
  · exact objLookup_objSet_self t f _ h

theorem objLookup_applyField_ne (t : J) (f : String) (o : Option J) (g : String)
    (h : g ≠ f) : objLookup (applyField t f o) g = objLookup t g := by
  cases o
  · rfl
  · exact objLookup_objSet_ne t f _ g h

theorem dictMem_true_of_get (m : List (J × J)) (k : J) (t : J)
    (h : dictGet? m k = some t) : dictMem m k = true := by
  cases hm : dictMem m k
  · rw [dictMem_false_iff] at hm
    rw [hm] at h
    exact Option.noConfusion h
  · rfl

/-- C3: a create event always assigns the next counter id, ignores any id
declared in its payload, and forces status `"pending"` regardless of any
status field in the payload. -/
theorem claim_C3_createCounterAndPending (st : LState) (kvs₁ kvs₂ : List (String × J))
    (hs : kvs₁.lookup "subject" = kvs₂.lookup "subject")
    (hd : kvs₁.lookup "description" = kvs₂.lookup "description") :
    applyToolCall st (J.str "TaskCreate", J.obj kvs₁) =
      applyToolCall st (J.str "TaskCreate", J.obj kvs₂) ∧
    ∃ st', applyToolCall st (J.str "TaskCreate", J.obj kvs₁) = .ok st' ∧
      st'.next_task_id = st.next_task_id + 1 ∧
      ∃ t, dictGet? st'.tasks (J.str (toString st.next_task_id)) = some t ∧
        objLookup t "status" = some (J.str "pending") ∧
        objLookup t "subject" = some ((kvs₁.lookup "subject").getD (J.str "")) ∧
        objLookup t "description" = some ((kvs₁.lookup "description").getD (J.str "")) := by
  constructor
  · rw [applyToolCall_eq_taskCreate, applyToolCall_eq_taskCreate]
    have : createdTask kvs₁ = createdTask kvs₂ := by
      unfold createdTask
      rw [hs, hd]
    rw [this]
  · refine ⟨_, applyToolCall_eq_taskCreate st kvs₁, rfl, createdTask kvs₁, ?_, rfl, rfl, rfl⟩
    exact dictGet?_dictSet_self st.tasks (J.str (toString st.next_task_id)) (createdTask kvs₁)

theorem claim_C3_createCounterAndPending_witness :
    applyToolCall initState (J.str "TaskCreate",
        J.obj [("subject", J.str "a"), ("taskId", J.str "9"), ("status", J.str "completed")]) =
      applyToolCall initState (J.str "TaskCreate", J.obj [("subject", J.str "a")]) ∧
    ∃ st', applyToolCall initState (J.str "TaskCreate",
        J.obj [("subject", J.str "a"), ("taskId", J.str "9"), ("status", J.str "completed")])
        = .ok st' ∧
      st'.next_task_id = initState.next_task_id + 1 ∧
      ∃ t, dictGet? st'.tasks (J.str (toString initState.next_task_id)) = some t ∧
        objLookup t "status" = some (J.str "pending") ∧
        objLookup t "subject" = some ((([("subject", J.str "a"), ("taskId", J.str "9"),
          ("status", J.str "completed")] : List (String × J)).lookup "subject").getD (J.str "")) ∧
        objLookup t "description" = some ((([("subject", J.str "a"), ("taskId", J.str "9"),
          ("status", J.str "completed")] : List (String × J)).lookup "description").getD (J.str "")) :=
  claim_C3_createCounterAndPending initState
    [("subject", J.str "a"), ("taskId", J.str "9"), ("status", J.str "completed")]
    [("subject", J.str "a")] (by decide) (by decide)

/-- C9: when an update has already materialized a task under the decimal
string that the counter will next produce, the next create event reuses that
id and wholesale replaces the stored subject/description/status. -/
theorem claim_C9_createReusesMaterializedId (st : LState) (ikvs : List (String × J)) (t₀ : J)
    (h : dictGet? st.tasks (J.str (toString st.next_task_id)) = some t₀) :
    ∃ st', applyToolCall st (J.str "TaskCreate", J.obj ikvs) = .ok st' ∧
      st'.tasks.length = st.tasks.length ∧
      st'.next_task_id = st.next_task_id + 1 ∧
      dictGet? st'.tasks (J.str (toString st.next_task_id)) =
        some (J.obj [("subject", (ikvs.lookup "subject").getD (J.str "")),
                     ("description", (ikvs.lookup "description").getD (J.str "")),
                     ("status", J.str "pending")]) := by
  refine ⟨_, applyToolCall_eq_taskCreate st ikvs, ?_, rfl, ?_⟩
  · exact length_dictSet_mem st.tasks _ _ (dictMem_true_of_get _ _ _ h)
  · exact dictGet?_dictSet_self st.tasks (J.str (toString st.next_task_id)) (createdTask ikvs)

theorem claim_C9_createReusesMaterializedId_witness :
    ∃ st', applyToolCall
        ⟨J.arr [], [(J.str "1", J.obj [("subject", J.str "Task 1"), ("description", J.str ""),
          ("status", J.str "completed")])], 1⟩
        (J.str "TaskCreate", J.obj [("subject", J.str "x")]) = .ok st' ∧
      st'.tasks.length = 1 ∧
      st'.next_task_id = 2 ∧
      dictGet? st'.tasks (J.str "1") =
        some (J.obj [("subject", J.str "x"), ("description", J.str ""),
          ("status", J.str "pending")]) :=
  claim_C9_createReusesMaterializedId
    ⟨J.arr [], [(J.str "1", J.obj [("subject", J.str "Task 1"), ("description", J.str ""),
      ("status", J.str "completed")])], 1⟩
    [("subject", J.str "x")]
    (J.obj [("subject", J.str "Task 1"), ("description", J.str ""),
      ("status", J.str "completed")])
    (by decide)

/-- The placeholder dict materialized for an update that references an unseen
id. -/
def placeholderTask (ikvs : List (String × J)) (tid : J) : J :=
  .obj [("subject", (ikvs.lookup "subject").getD (.str ("Task " ++ pyStr tid))),
        ("description", (ikvs.lookup "description").getD (.str "")),
        ("status", .str "pending")]

theorem taskUpdateStep_eq (st : LState) (ikvs : List (String × J)) (tid : J)
    (hlook : ikvs.lookup "taskId" = some tid) (ht : truthy tid = true)
    (hh : hashable tid = true) :
    taskUpdateStep st ikvs =
      .ok { st with
            tasks := stepField (stepField (stepField
              (if dictMem st.tasks tid then st.tasks
               else dictSet st.tasks tid (placeholderTask ikvs tid))
              tid "status" (ikvs.lookup "status"))
              tid "subject" (ikvs.lookup "subject"))
              tid "description" (ikvs.lookup "description") } := by
  unfold taskUpdateStep
  rw [hlook]
  simp only [Option.getD_some]
  rw [if_pos ht, if_pos hh]
  rfl

/-- C4: an update with no id is ignored; an update on an unseen id
materializes exactly one placeholder (subject from the update, default
`"Task <id>"`; description default empty; status `"pending"`) and applies the
update on top; an update on a seen id overwrites exactly the fields present
in the payload and keeps the rest. -/
theorem claim_C4_updateSemantics (st : LState) (ikvs : List (String × J)) :
    (ikvs.lookup "taskId" = none →
      applyToolCall st (J.str "TaskUpdate", J.obj ikvs) = .ok st) ∧
    (∀ tid, ikvs.lookup "taskId" = some tid → truthy tid = true → hashable tid = true →
      dictGet? st.tasks tid = none →
      ∃ st', applyToolCall st (J.str "TaskUpdate", J.obj ikvs) = .ok st' ∧
        st'.tasks.length = st.tasks.length + 1 ∧
        (∀ k, k ≠ tid → dictGet? st'.tasks k = dictGet? st.tasks k) ∧
        ∃ t, dictGet? st'.tasks tid = some t ∧
          objLookup t "status" = some ((ikvs.lookup "status").getD (J.str "pending")) ∧
          objLookup t "subject" =
            some ((ikvs.lookup "subject").getD (J.str ("Task " ++ pyStr tid))) ∧
          objLookup t "description" = some ((ikvs.lookup "description").getD (J.str ""))) ∧
    (∀ tid t₀, ikvs.lookup "taskId" = some tid → truthy tid = true → hashable tid = true →
      dictGet? st.tasks tid = some t₀ → isObjB t₀ = true →
      ∃ st', applyToolCall st (J.str "TaskUpdate", J.obj ikvs) = .ok st' ∧
        st'.tasks.length = st.tasks.length ∧
        (∀ k, k ≠ tid → dictGet? st'.tasks k = dictGet? st.tasks k) ∧
        ∃ t, dictGet? st'.tasks tid = some t ∧
          objLookup t "status" = (match ikvs.lookup "status" with
            | some v => some v | none => objLookup t₀ "status") ∧
          objLookup t "subject" = (match ikvs.lookup "subject" with
            | some v => some v | none => objLookup t₀ "subject") ∧
          objLookup t "description" = (match ikvs.lookup "description" with
            | some v => some v | none => objLookup t₀ "description")) := by
  refine ⟨?_, ?_, ?_⟩
  · intro hnone
    rw [applyToolCall_eq_taskUpdate]
    unfold taskUpdateStep
    rw [hnone]
    exact if_neg (by decide)
  · intro tid hlook ht hh habs
    have hmem : dictMem st.tasks tid = false := (dictMem_false_iff st.tasks tid).mpr habs
    rw [applyToolCall_eq_taskUpdate, taskUpdateStep_eq st ikvs tid hlook ht hh,
      if_neg (by rw [hmem]; exact Bool.false_ne_true)]
    refine ⟨_, rfl, ?_, ?_, ?_⟩
    · rw [length_stepField, length_stepField, length_stepField,
        length_dictSet_not_mem st.tasks tid _ hmem]
    · intro k hk
      rw [dictGet?_stepField_ne _ _ _ _ k hk, dictGet?_stepField_ne _ _ _ _ k hk,
        dictGet?_stepField_ne _ _ _ _ k hk, dictGet?_dictSet_ne st.tasks tid _ k hk]
    · have hbase : dictGet? (dictSet st.tasks tid (placeholderTask ikvs tid)) tid =
          some (placeholderTask ikvs tid) := dictGet?_dictSet_self st.tasks tid _
      have hget : dictGet? (stepField (stepField (stepField
          (dictSet st.tasks tid (placeholderTask ikvs tid))
          tid "status" (ikvs.lookup "status"))
          tid "subject" (ikvs.lookup "subject"))
          tid "description" (ikvs.lookup "description")) tid =
          some (applyField (applyField (applyField (placeholderTask ikvs tid)
            "status" (ikvs.lookup "status"))
            "subject" (ikvs.lookup "subject"))
            "description" (ikvs.lookup "description")) := by
        rw [dictGet?_stepField_self, dictGet?_stepField_self, dictGet?_stepField_self, hbase]
        rfl
      refine ⟨_, hget, ?_, ?_, ?_⟩
      · have hobj1 : isObjB (applyField (placeholderTask ikvs tid) "status"
            (ikvs.lookup "status")) = true := by
          rw [isObjB_applyField]
          rfl
        rw [objLookup_applyField_ne _ _ _ _ (by decide),
          objLookup_applyField_ne _ _ _ _ (by decide),
          objLookup_applyField_self _ _ _ (by rfl)]
        cases ikvs.lookup "status"
        · rfl
        · rfl
      · have hobj1 : isObjB (applyField (placeholderTask ikvs tid) "status"
            (ikvs.lookup "status")) = true := by
          rw [isObjB_applyField]
          rfl
        rw [objLookup_applyField_ne _ _ _ _ (by decide),
          objLookup_applyField_self _ _ _ hobj1,
          objLookup_applyField_ne _ _ _ _ (by decide)]
        cases hsub : ikvs.lookup "subject" with
        | none =>
            show objLookup (placeholderTask ikvs tid) "subject" =
              some (Option.getD none (J.str ("Task " ++ pyStr tid)))
            have e : objLookup (placeholderTask ikvs tid) "subject" =
              some ((ikvs.lookup "subject").getD (J.str ("Task " ++ pyStr tid))) := rfl
            rw [e, hsub]
        | some v => rfl
      · have hobj2 : isObjB (applyField (applyField (placeholderTask ikvs tid) "status"
            (ikvs.lookup "status")) "subject" (ikvs.lookup "subject")) = true := by
          rw [isObjB_applyField, isObjB_applyField]
          rfl
        rw [objLookup_applyField_self _ _ _ hobj2,
          objLookup_applyField_ne _ _ _ _ (by decide),
          objLookup_applyField_ne _ _ _ _ (by decide)]
        cases hdesc : ikvs.lookup "description" with
        | none =>
            show objLookup (placeholderTask ikvs tid) "description" =
              some (Option.getD none (J.str ""))
            have e : objLookup (placeholderTask ikvs tid) "description" =
              some ((ikvs.lookup "description").getD (J.str "")) := rfl
            rw [e, hdesc]
        | some v => rfl
  · intro tid t₀ hlook ht hh hseen hobj
    have hmem : dictMem st.tasks tid = true := dictMem_true_of_get _ _ _ hseen
    rw [applyToolCall_eq_taskUpdate, taskUpdateStep_eq st ikvs tid hlook ht hh, if_pos hmem]
    refine ⟨_, rfl, ?_, ?_, ?_⟩
    · rw [length_stepField, length_stepField, length_stepField]
    · intro k hk
      rw [dictGet?_stepField_ne _ _ _ _ k hk, dictGet?_stepField_ne _ _ _ _ k hk,
        dictGet?_stepField_ne _ _ _ _ k hk]
    · have hget : dictGet? (stepField (stepField (stepField st.tasks
          tid "status" (ikvs.lookup "status"))
          tid "subject" (ikvs.lookup "subject"))
          tid "description" (ikvs.lookup "description")) tid =
          some (applyField (applyField (applyField t₀
            "status" (ikvs.lookup "status"))
            "subject" (ikvs.lookup "subject"))
            "description" (ikvs.lookup "description")) := by
        rw [dictGet?_stepField_self, dictGet?_stepField_self, dictGet?_stepField_self, hseen]
        rfl
      refine ⟨_, hget, ?_, ?_, ?_⟩
      · rw [objLookup_applyField_ne _ _ _ _ (by decide),
          objLookup_applyField_ne _ _ _ _ (by decide),
          objLookup_applyField_self _ _ _ hobj]
      · have hobj1 : isObjB (applyField t₀ "status" (ikvs.lookup "status")) = true := by
          rw [isObjB_applyField]
          exact hobj
        rw [objLookup_applyField_ne _ _ _ _ (by decide),
          objLookup_applyField_self _ _ _ hobj1,
          objLookup_applyField_ne _ _ _ _ (by decide)]
      · have hobj2 : isObjB (applyField (applyField t₀ "status"
            (ikvs.lookup "status")) "subject" (ikvs.lookup "subject")) = true := by
          rw [isObjB_applyField, isObjB_applyField]
          exact hobj
        rw [objLookup_applyField_self _ _ _ hobj2,
          objLookup_applyField_ne _ _ _ _ (by decide),
          objLookup_applyField_ne _ _ _ _ (by decide)]

theorem claim_C4_updateSemantics_witness :
    applyToolCall initState (J.str "TaskUpdate", J.obj [("subject", J.str "s")]) =
      .ok initState ∧
    ∃ st', applyToolCall initState
        (J.str "TaskUpdate", J.obj [("taskId", J.str "5"), ("status", J.str "done")])
        = .ok st' ∧
      st'.tasks.length = initState.tasks.length + 1 ∧
      (∀ k, k ≠ J.str "5" → dictGet? st'.tasks k = dictGet? initState.tasks k) ∧
      ∃ t, dictGet? st'.tasks (J.str "5") = some t ∧
        objLookup t "status" = some (J.str "done") ∧
        objLookup t "subject" = some (J.str "Task 5") ∧
        objLookup t "description" = some (J.str "") := by
  constructor
  · exact (claim_C4_updateSemantics initState [("subject", J.str "s")]).1 (by decide)
  · exact (claim_C4_updateSemantics initState
      [("taskId", J.str "5"), ("status", J.str "done")]).2.1 (J.str "5")
      (by decide) (by decide) (by decide) (by decide)

/-- The legacy reducer's qualifying event as the spec words it: a bulk-write
(`TodoWrite`) event whose payload carries a NON-EMPTY todos LIST. -/
def qualifyingPerSpec (tc : J × J) : Bool :=
  tc.1 == J.str "TodoWrite" &&
    (match objLookup tc.2 "todos" with
     | some (J.arr ts) => !ts.isEmpty
     | _ => false)

theorem foldlM_latest (tcs : List (J × J)) : ∀ (st st' : LState),
    tcs.foldlM applyToolCall st = .ok st' →
    st'.latest_todos = (((tcs.filter qualifyingTW).getLast?).map twPayload).getD
      st.latest_todos
  | st, st', h => by
      induction tcs generalizing st with
      | nil =>
          rw [List.foldlM_nil] at h
          rw [(Except.ok.inj h).symm]
          rfl
      | cons tc tcs ih =>
          rw [List.foldlM_cons] at h
          cases hx : applyToolCall st tc with
          | error e =>
              rw [hx] at h
              exact Except.noConfusion h
          | ok st₁ =>
              rw [hx] at h
              have hlat := applyToolCall_latest st tc st₁ hx
              have ihr := ih st₁ h
              cases hq : qualifyingTW tc with
              | false =>
                  rw [List.filter_cons, if_neg (by rw [hq]; exact Bool.false_ne_true)]
                  rw [hq] at hlat
                  rw [if_neg (by exact Bool.false_ne_true)] at hlat
                  rw [ihr, hlat]
              | true =>
                  rw [List.filter_cons, if_pos (by rw [hq])]
                  rw [hq] at hlat
                  rw [if_pos rfl] at hlat
                  cases hf : tcs.filter qualifyingTW with
                  | nil =>
                      rw [hf] at ihr
                      rw [ihr, hlat]
                      rfl
                  | cons y ys =>
                      rw [hf] at ihr
                      rw [ihr, List.getLast?_cons_cons]
                      cases hlast : (y :: ys).getLast? with
                      | none => exact absurd hlast (by simp)
                      | some z => rfl

theorem qualifying_eq_of_shape (tc : J × J)
    (hshape : (tc.1 == J.str "TodoWrite") = true →
      ∃ ikvs, tc.2 = J.obj ikvs ∧
        (ikvs.lookup "todos" = none ∨ ∃ ts, ikvs.lookup "todos" = some (J.arr ts))) :
    qualifyingTW tc = qualifyingPerSpec tc := by
  by_cases hn : (tc.1 == J.str "TodoWrite") = true
  · obtain ⟨ikvs, h2, hto⟩ := hshape hn
    obtain ⟨n, i⟩ := tc
    simp only at h2
    subst h2
    rcases hto with hto | ⟨ts, hto⟩
    · simp [qualifyingTW, qualifyingPerSpec, objLookup, hto, hn, truthy]
    · simp [qualifyingTW, qualifyingPerSpec, objLookup, hto, hn, truthy]
  · have hn' := eq_false_of_not_true hn
    simp [qualifyingTW, qualifyingPerSpec, hn']

/-- C5: the legacy reducer's result is, verbatim, the todos payload of the
last bulk-write event carrying a non-empty todos list; events with an empty
or absent list are no-ops (they never clear a previously seen list); with no
qualifying event the result is the empty list. -/
theorem claim_C5_legacyReducerLastWrite (tcs : List (J × J)) (st' : LState)
    (h : tcs.foldlM applyToolCall initState = .ok st')
    (hshape : ∀ tc ∈ tcs, (tc.1 == J.str "TodoWrite") = true →
      ∃ ikvs, tc.2 = J.obj ikvs ∧
        (ikvs.lookup "todos" = none ∨ ∃ ts, ikvs.lookup "todos" = some (J.arr ts))) :
    st'.latest_todos =
      (((tcs.filter qualifyingPerSpec).getLast?).map twPayload).getD (J.arr []) := by
  have := foldlM_latest tcs initState st' h
  rw [List.filter_congr (fun tc htc => qualifying_eq_of_shape tc (hshape tc htc))] at this
  exact this

theorem claim_C5_legacyReducerLastWrite_witness :
    ∃ st', ([(J.str "TodoWrite", J.obj [("todos", J.arr [J.obj [("status", J.str "pending"),
        ("content", J.str "w")]])]),
      (J.str "TodoWrite", J.obj []),
      (J.str "TodoWrite", J.obj [("todos", J.arr [])])] : List (J × J)).foldlM
        applyToolCall initState = .ok st' ∧
      st'.latest_todos = J.arr [J.obj [("status", J.str "pending"), ("content", J.str "w")]] := by
  refine ⟨⟨J.arr [J.obj [("status", J.str "pending"), ("content", J.str "w")]], [], 1⟩,
    rfl, ?_⟩
  have h := claim_C5_legacyReducerLastWrite
    [(J.str "TodoWrite", J.obj [("todos", J.arr [J.obj [("status", J.str "pending"),
        ("content", J.str "w")]])]),
      (J.str "TodoWrite", J.obj []),
      (J.str "TodoWrite", J.obj [("todos", J.arr [])])]
    ⟨J.arr [J.obj [("status", J.str "pending"), ("content", J.str "w")]], [], 1⟩
    rfl
    (by
      intro tc htc hname
      rcases List.mem_cons.mp htc with rfl | htc
      · exact ⟨[("todos", J.arr [J.obj [("status", J.str "pending"), ("content", J.str "w")]])],
          rfl, Or.inr ⟨[J.obj [("status", J.str "pending"), ("content", J.str "w")]], rfl⟩⟩
      · rcases List.mem_cons.mp htc with rfl | htc
        · exact ⟨[], rfl, Or.inl rfl⟩
        · rcases List.mem_cons.mp htc with rfl | htc
          · exact ⟨[("todos", J.arr [])], rfl, Or.inr ⟨[], rfl⟩⟩
          · exact absurd htc (List.not_mem_nil tc))
  rw [h]
  rfl

/-- C6: the formatter yields exit 0 and no report on an empty list, exit 1
with the `INCOMPLETE_TODOS` marker line plus exactly one line per item
otherwise; each line shows the bracketed status, task-sourced items carry a
`(Task #<id>)` marker before the content and todo-sourced items do not. -/
theorem claim_C6_formatterContract (items : List Item) :
    decideOutput [] = (0, []) ∧
    (items ≠ [] →
      (decideOutput items).1 = 1 ∧
      (decideOutput items).2 = "INCOMPLETE_TODOS" :: items.map formatItem ∧
      (decideOutput items).2.length = items.length + 1 ∧
      (∀ it ∈ items,
        (it.source = "task" →
          formatItem it = "  - [" ++ pyStr it.status ++ "] (Task #" ++
            pyStr (it.task_id.getD (J.str "?")) ++ ") " ++ pyStr it.content) ∧
        (it.source ≠ "task" →
          formatItem it = "  - [" ++ pyStr it.status ++ "] " ++ pyStr it.content))) := by
  refine ⟨rfl, fun hne => ?_⟩
  have hie : items.isEmpty = false := by
    cases items
    · exact absurd rfl hne
    · rfl
  have hd : decideOutput items = (1, "INCOMPLETE_TODOS" :: items.map formatItem) := by
    unfold decideOutput
    rw [if_neg (by rw [hie]; exact Bool.false_ne_true)]
  refine ⟨by rw [hd], by rw [hd], ?_, ?_⟩
  · rw [hd, List.length_cons, List.length_map]
  · intro it hit
    constructor
    · intro hsrc
      unfold formatItem
      rw [if_pos (by rw [hsrc]; exact beq_self_eq_true "task")]
    · intro hsrc
      unfold formatItem
      rw [if_neg (by rw [beq_eq_false_iff_ne.mpr hsrc]; exact Bool.false_ne_true)]

def sampleItems : List Item :=
  [⟨J.str "pending", J.str "w", "todo", none⟩,
   ⟨J.str "in_progress", J.str "f", "task", some (J.str "7")⟩]

theorem claim_C6_formatterContract_witness :
    (decideOutput [] = (0, []) ∧
      (sampleItems ≠ [] →
        (decideOutput sampleItems).1 = 1 ∧
        (decideOutput sampleItems).2 = "INCOMPLETE_TODOS" :: sampleItems.map formatItem ∧
        (decideOutput sampleItems).2.length = sampleItems.length + 1 ∧
        (∀ it ∈ sampleItems,
          (it.source = "task" →
            formatItem it = "  - [" ++ pyStr it.status ++ "] (Task #" ++
              pyStr (it.task_id.getD (J.str "?")) ++ ") " ++ pyStr it.content) ∧
          (it.source ≠ "task" →
            formatItem it = "  - [" ++ pyStr it.status ++ "] " ++ pyStr it.content)))) ∧
    formatItem ⟨J.str "in_progress", J.str "f", "task", some (J.str "7")⟩ =
      "  - [in_progress] (Task #7) f" :=
  ⟨claim_C6_formatterContract sampleItems, by decide⟩

theorem main_run_parsed_obj (expand : String → String)
    (fs : String → Option (List (Option J))) (kvs : List (String × J)) :
    main_run (.parsed (J.obj kvs)) expand fs =
      (if truthy ((kvs.lookup "transcript_path").getD (J.str "")) = true then
        (match (kvs.lookup "transcript_path").getD (J.str "") with
         | J.str p =>
             (match find_incomplete_items (fs (expand p)) with
              | Except.error e => Except.error e
              | Except.ok items =>
                  Except.ok (MainResult.mk (decideOutput items).1 (decideOutput items).2 false))
         | _ => Except.error ())
       else .ok ⟨0, [], false⟩) := rfl

/-- C7: exit code 2 (with a stderr diagnostic and empty stdout) occurs exactly
when the non-empty stdin input is not decodable as JSON; empty stdin, a
missing `transcript_path` key, and a nonexistent transcript file are not
errors and yield exit 0 with no output. -/
theorem claim_C7_exitTaxonomy (expand : String → String)
    (fs : String → Option (List (Option J))) :
    main_run .malformed expand fs = .ok ⟨2, [], true⟩ ∧
    main_run .empty expand fs = .ok ⟨0, [], false⟩ ∧
    (∀ kvs, kvs.lookup "transcript_path" = none →
      main_run (.parsed (J.obj kvs)) expand fs = .ok ⟨0, [], false⟩) ∧
    (∀ kvs p, kvs.lookup "transcript_path" = some (J.str p) → fs (expand p) = none →
      main_run (.parsed (J.obj kvs)) expand fs = .ok ⟨0, [], false⟩) ∧
    (∀ stdin r, main_run stdin expand fs = .ok r → (r.exit_code = 2 ↔ stdin = .malformed)) := by
  refine ⟨rfl, rfl, ?_, ?_, ?_⟩
  · intro kvs h
    rw [main_run_parsed_obj, h]
    exact if_neg (by decide)
  · intro kvs p h hfs
    rw [main_run_parsed_obj, h]
    by_cases htp : truthy ((some (J.str p)).getD (J.str "")) = true
    · rw [if_pos htp]
      show (match find_incomplete_items (fs (expand p)) with
        | Except.error e => Except.error e
        | Except.ok items =>
            Except.ok (MainResult.mk (decideOutput items).1 (decideOutput items).2 false)) = _
      rw [hfs]
      rfl
    · rw [if_neg htp]
  · intro stdin r h
    cases stdin with
    | empty =>
        replace h := Except.ok.inj h
        constructor
        · intro h2
          rw [← h] at h2
          exact absurd h2 (by decide)
        · intro he
          exact StdinInput.noConfusion he
    | malformed =>
        constructor
        · intro _
          rfl
        · intro _
          exact (Except.ok.inj h) ▸ rfl
    | parsed j =>
        constructor
        · intro h2
          cases j with
          | obj kvs =>
              rw [main_run_parsed_obj] at h
              by_cases htp : truthy ((kvs.lookup "transcript_path").getD (J.str "")) = true
              · rw [if_pos htp] at h
                cases htpv : (kvs.lookup "transcript_path").getD (J.str "") with
                | str p =>
                    rw [htpv] at h
                    replace h : (match find_incomplete_items (fs (expand p)) with
                      | Except.error e => Except.error e
                      | Except.ok items =>
                          Except.ok (MainResult.mk (decideOutput items).1
                            (decideOutput items).2 false))
                        = Except.ok r := h
                    cases hfi : find_incomplete_items (fs (expand p)) with
                    | error e =>
                        rw [hfi] at h
                        exact Except.noConfusion h
                    | ok items =>
                        rw [hfi] at h
                        replace h := Except.ok.inj h
                        rw [← h] at h2
                        by_cases hie : items.isEmpty = true
                        · have he0 : (decideOutput items).1 = 0 := by
                            unfold decideOutput
                            rw [if_pos hie]
                          rw [he0] at h2
                          exact absurd (show (0 : Nat) = 2 from h2) (by decide)
                        · have he1 : (decideOutput items).1 = 1 := by
                            unfold decideOutput
                            rw [if_neg hie]
                          rw [he1] at h2
                          exact absurd (show (1 : Nat) = 2 from h2) (by decide)
                | null =>
                    rw [htpv] at htp
                    exact absurd htp (by decide)
                | bool b =>
                    rw [htpv] at h
                    exact Except.noConfusion h
                | num n =>
                    rw [htpv] at h
                    exact Except.noConfusion h
                | arr xs =>
                    rw [htpv] at h
                    exact Except.noConfusion h
                | obj okvs =>
                    rw [htpv] at h
                    exact Except.noConfusion h
              · rw [if_neg htp] at h
                replace h := Except.ok.inj h
                rw [← h] at h2
                exact absurd h2 (by decide)
          | null => exact Except.noConfusion h
          | bool b => exact Except.noConfusion h
          | num n => exact Except.noConfusion h
          | str s => exact Except.noConfusion h
          | arr xs => exact Except.noConfusion h
        · intro he
          exact StdinInput.noConfusion he

theorem claim_C7_exitTaxonomy_witness :
    main_run .malformed id (fun _ => none) = .ok ⟨2, [], true⟩ ∧
    main_run .empty id (fun _ => none) = .ok ⟨0, [], false⟩ ∧
    main_run (.parsed (J.obj [("session_id", J.str "s")])) id (fun _ => none)
      = .ok ⟨0, [], false⟩ ∧
    main_run (.parsed (J.obj [("transcript_path", J.str "/t")])) id (fun _ => none)
      = .ok ⟨0, [], false⟩ ∧
    ((2 : Nat) = 2 ↔ StdinInput.malformed = StdinInput.malformed) := by
  obtain ⟨h1, h2, h3, h4, h5⟩ := claim_C7_exitTaxonomy id (fun _ => none)
  exact ⟨h1, h2, h3 _ (by decide), h4 _ "/t" (by decide) rfl, h5 .malformed ⟨2, [], true⟩ h1⟩

/-- C10: every task the in-stream ledger ever stores carries explicit
subject/description/status keys, so the reported content is the subject when
truthy, else the stored description (possibly the empty string) — the
`"Task <id>"` content placeholder of the item-building loop is unreachable
for ledger tasks. -/
theorem claim_C10_ledgerContentFallback (lines : List (Option J)) (st : LState)
    (h : runLines lines = .ok st) :
    ∀ p ∈ st.tasks, ∃ s d stat,
      objLookup p.2 "subject" = some s ∧
      objLookup p.2 "description" = some d ∧
      objLookup p.2 "status" = some stat ∧
      taskItems1 p.1 p.2 = .ok (if stat == J.str "completed" then []
        else [⟨stat, if truthy s then s else d, "task", some p.1⟩]) := by
  have hwf := runLines_TasksWF lines st h
  intro p hp
  have hp' := hwf p hp
  unfold taskWF at hp'
  simp only [Bool.and_eq_true] at hp'
  obtain ⟨⟨⟨hobj, hs⟩, hd⟩, hst⟩ := hp'
  obtain ⟨s, hs⟩ := Option.isSome_iff_exists.mp hs
  obtain ⟨d, hd⟩ := Option.isSome_iff_exists.mp hd
  obtain ⟨stat, hst⟩ := Option.isSome_iff_exists.mp hst
  refine ⟨s, d, stat, hs, hd, hst, ?_⟩
  rw [taskItems1_eq p hobj]
  unfold taskPure mkTaskItem
  rw [hs, hd, hst, Option.getD_some, Option.getD_some, Option.getD_some]
  unfold pyOr
  rfl

theorem claim_C10_ledgerContentFallback_witness :
    ∃ s d stat,
      objLookup (J.obj [("subject", J.str ""), ("description", J.str ""),
        ("status", J.str "pending")]) "subject" = some s ∧
      objLookup (J.obj [("subject", J.str ""), ("description", J.str ""),
        ("status", J.str "pending")]) "description" = some d ∧
      objLookup (J.obj [("subject", J.str ""), ("description", J.str ""),
        ("status", J.str "pending")]) "status" = some stat ∧
      taskItems1 (J.str "1") (J.obj [("subject", J.str ""), ("description", J.str ""),
        ("status", J.str "pending")]) = .ok (if stat == J.str "completed" then []
        else [⟨stat, if truthy s then s else d, "task", some (J.str "1")⟩]) :=
  claim_C10_ledgerContentFallback
    [some (J.obj [("type", J.str "tool_use"), ("name", J.str "TaskCreate"),
      ("input", J.obj [("subject", J.str "")])])]
    ⟨J.arr [], [(J.str "1", J.obj [("subject", J.str ""), ("description", J.str ""),
      ("status", J.str "pending")])], 2⟩
    rfl
    (J.str "1", J.obj [("subject", J.str ""), ("description", J.str ""),
      ("status", J.str "pending")])
    (List.mem_singleton.mpr rfl)

/-- C8: in the reconciled output, todo-sourced items precede task-sourced
items; the todo group keeps the stream order of the final todo list and the
task group keeps the insertion order of the id-to-task mapping (no sorting). -/
theorem claim_C8_outputOrdering (lines : List (Option J)) (st : LState) (ts : List J)
    (h : runLines lines = .ok st) (hlt : st.latest_todos = J.arr ts)
    (hobj : ∀ t ∈ ts, isObjB t = true) :
    find_incomplete_items (some lines) =
      .ok ((ts.filter todoIncluded).map mkTodoItem ++
        (st.tasks.filter taskIncluded).map mkTaskItem) ∧
    (∀ it ∈ (ts.filter todoIncluded).map mkTodoItem, it.source = "todo") ∧
    (∀ it ∈ (st.tasks.filter taskIncluded).map mkTaskItem, it.source = "task") ∧
    ((st.tasks.filter taskIncluded).map mkTaskItem).map (fun it => it.task_id) =
      (st.tasks.filter taskIncluded).map (fun p => some p.1) := by
  refine ⟨find_incomplete_items_eq lines st ts h hlt hobj, ?_, ?_, ?_⟩
  · intro it hit
    obtain ⟨t, _, he⟩ := List.mem_map.mp hit
    rw [← he]
    rfl
  · intro it hit
    obtain ⟨p, _, he⟩ := List.mem_map.mp hit
    rw [← he]
    rfl
  · rw [List.map_map]
    rfl

theorem claim_C8_outputOrdering_witness :
    find_incomplete_items (some [some (J.obj [("type", J.str "tool_use"),
        ("name", J.str "TodoWrite"),
        ("input", J.obj [("todos", J.arr [J.obj [("status", J.str "pending"),
          ("content", J.str "w")]])])]),
      some (J.obj [("type", J.str "tool_use"), ("name", J.str "TaskCreate"),
        ("input", J.obj [("subject", J.str "f")])])]) =
      .ok ((([J.obj [("status", J.str "pending"), ("content", J.str "w")]] : List J).filter
          todoIncluded).map mkTodoItem ++
        (([(J.str "1", J.obj [("subject", J.str "f"), ("description", J.str ""),
          ("status", J.str "pending")])] : List (J × J)).filter taskIncluded).map mkTaskItem) ∧
    (∀ it ∈ (([J.obj [("status", J.str "pending"), ("content", J.str "w")]] : List J).filter
        todoIncluded).map mkTodoItem, it.source = "todo") ∧
    (∀ it ∈ (([(J.str "1", J.obj [("subject", J.str "f"), ("description", J.str ""),
        ("status", J.str "pending")])] : List (J × J)).filter taskIncluded).map mkTaskItem,
      it.source = "task") ∧
    ((([(J.str "1", J.obj [("subject", J.str "f"), ("description", J.str ""),
        ("status", J.str "pending")])] : List (J × J)).filter taskIncluded).map
        mkTaskItem).map (fun it => it.task_id) =
      (([(J.str "1", J.obj [("subject", J.str "f"), ("description", J.str ""),
        ("status", J.str "pending")])] : List (J × J)).filter taskIncluded).map
        (fun p => some p.1) :=
  claim_C8_outputOrdering
    [some (J.obj [("type", J.str "tool_use"), ("name", J.str "TodoWrite"),
        ("input", J.obj [("todos", J.arr [J.obj [("status", J.str "pending"),
          ("content", J.str "w")]])])]),
      some (J.obj [("type", J.str "tool_use"), ("name", J.str "TaskCreate"),
        ("input", J.obj [("subject", J.str "f")])])]
    ⟨J.arr [J.obj [("status", J.str "pending"), ("content", J.str "w")]],
      [(J.str "1", J.obj [("subject", J.str "f"), ("description", J.str ""),
        ("status", J.str "pending")])], 2⟩
    [J.obj [("status", J.str "pending"), ("content", J.str "w")]]
    rfl rfl (by decide)

/-- The payload shapes under which one extracted tool call is processed
without raising: a dict payload for the three recognized tools, with a
TodoWrite `todos` value that is falsy or a list of dicts (so the final todo
loop cannot raise either) and a TaskUpdate `taskId` that is falsy or
hashable. -/
def goodCall (tc : J × J) : Bool :=
  if tc.1 == J.str "TodoWrite" then
    match tc.2 with
    | .obj ikvs =>
        !(truthy ((ikvs.lookup "todos").getD (.arr []))) ||
          objsOnly ((ikvs.lookup "todos").getD (.arr []))
    | _ => false
  else if tc.1 == J.str "TaskCreate" then isObjB tc.2
  else if tc.1 == J.str "TaskUpdate" then
    match tc.2 with
    | .obj ikvs =>
        !(truthy ((ikvs.lookup "taskId").getD (.str ""))) ||
          hashable ((ikvs.lookup "taskId").getD (.str ""))
    | _ => false
  else true

/-- A decoded line whose extraction succeeds and whose extracted calls are all
well-shaped. -/
def goodEntry (entry : J) : Bool :=
  match extract_tool_calls_from_entry entry with
  | .ok tcs => tcs.all goodCall
  | .error _ => false

/-- A transcript line that is skipped (blank/undecodable) or well-shaped. -/
def goodLine : Option J → Bool
  | none => true
  | some entry => goodEntry entry

def GoodSt (st : LState) : Prop := objsOnly st.latest_todos = true ∧ TasksWF st.tasks

theorem applyToolCall_progress (st : LState) (tc : J × J) (hg : goodCall tc = true)
    (hst : GoodSt st) : ∃ st', applyToolCall st tc = .ok st' ∧ GoodSt st' := by
  obtain ⟨n, i⟩ := tc
  by_cases h1 : (n == J.str "TodoWrite") = true
  · have hn : n = J.str "TodoWrite" := eq_of_beq h1
    subst hn
    cases i with
    | obj ikvs =>
        rw [applyToolCall_eq_todoWrite]
        refine ⟨_, rfl, ?_⟩
        unfold goodCall at hg
        rw [if_pos h1] at hg
        replace hg : (!(truthy ((ikvs.lookup "todos").getD (.arr []))) ||
          objsOnly ((ikvs.lookup "todos").getD (.arr []))) = true := hg
        by_cases ht : truthy ((ikvs.lookup "todos").getD (.arr [])) = true
        · rw [if_pos ht]
          rw [ht] at hg
          simp only [Bool.not_true, Bool.false_or] at hg
          exact ⟨hg, hst.2⟩
        · rw [if_neg ht]
          exact hst
    | null => exact absurd hg (by rw [goodCall, if_pos h1]; exact Bool.false_ne_true)
    | bool b => exact absurd hg (by rw [goodCall, if_pos h1]; exact Bool.false_ne_true)
    | num x => exact absurd hg (by rw [goodCall, if_pos h1]; exact Bool.false_ne_true)
    | str s => exact absurd hg (by rw [goodCall, if_pos h1]; exact Bool.false_ne_true)
    | arr xs => exact absurd hg (by rw [goodCall, if_pos h1]; exact Bool.false_ne_true)
  · by_cases h2 : (n == J.str "TaskCreate") = true
    · have hn : n = J.str "TaskCreate" := eq_of_beq h2
      subst hn
      have h1' : ((J.str "TaskCreate" : J) == J.str "TodoWrite") = false := by decide
      cases i with
      | obj ikvs =>
          rw [applyToolCall_eq_taskCreate]
          exact ⟨_, rfl, hst.1, TasksWF_dictSet hst.2 (taskWF_createdTask ikvs)⟩
      | null => exact absurd hg (by rw [goodCall, if_neg h1, if_pos h2]; exact Bool.false_ne_true)
      | bool b => exact absurd hg (by rw [goodCall, if_neg h1, if_pos h2]; exact Bool.false_ne_true)
      | num x => exact absurd hg (by rw [goodCall, if_neg h1, if_pos h2]; exact Bool.false_ne_true)
      | str s => exact absurd hg (by rw [goodCall, if_neg h1, if_pos h2]; exact Bool.false_ne_true)
      | arr xs => exact absurd hg (by rw [goodCall, if_neg h1, if_pos h2]; exact Bool.false_ne_true)
    · by_cases h3 : (n == J.str "TaskUpdate") = true
      · have hn : n = J.str "TaskUpdate" := eq_of_beq h3
        subst hn
        cases i with
        | obj ikvs =>
            rw [applyToolCall_eq_taskUpdate]
            unfold goodCall at hg
            rw [if_neg h1, if_neg h2, if_pos h3] at hg
            replace hg : (!(truthy ((ikvs.lookup "taskId").getD (.str ""))) ||
              hashable ((ikvs.lookup "taskId").getD (.str ""))) = true := hg
            by_cases ht : truthy ((ikvs.lookup "taskId").getD (.str "")) = true
            · rw [ht] at hg
              simp only [Bool.not_true, Bool.false_or] at hg
              cases hlook : ikvs.lookup "taskId" with
              | none =>
                  rw [hlook] at ht
                  exact absurd ht (by decide)
              | some tid =>
                  rw [hlook] at ht hg
                  rw [Option.getD_some] at ht hg
                  rw [taskUpdateStep_eq st ikvs tid hlook ht hg]
                  refine ⟨_, rfl, hst.1, ?_⟩
                  have h1' : TasksWF (if dictMem st.tasks tid then st.tasks
                      else dictSet st.tasks tid (placeholderTask ikvs tid)) := by
                    split
                    · exact hst.2
                    · exact TasksWF_dictSet hst.2 rfl
                  exact TasksWF_matchModify _ _ _ _ (TasksWF_matchModify _ _ _ _
                    (TasksWF_matchModify _ _ _ _ h1'))
            · unfold taskUpdateStep
              rw [if_neg ht]
              exact ⟨st, rfl, hst⟩
        | null =>
            exact absurd hg
              (by rw [goodCall, if_neg h1, if_neg h2, if_pos h3]; exact Bool.false_ne_true)
        | bool b =>
            exact absurd hg
              (by rw [goodCall, if_neg h1, if_neg h2, if_pos h3]; exact Bool.false_ne_true)
        | num x =>
            exact absurd hg
              (by rw [goodCall, if_neg h1, if_neg h2, if_pos h3]; exact Bool.false_ne_true)
        | str s =>
            exact absurd hg
              (by rw [goodCall, if_neg h1, if_neg h2, if_pos h3]; exact Bool.false_ne_true)
        | arr xs =>
            exact absurd hg
              (by rw [goodCall, if_neg h1, if_neg h2, if_pos h3]; exact Bool.false_ne_true)
      · refine ⟨st, ?_, hst⟩
        exact applyToolCall_eq_other st (n, i) (eq_false_of_not_true h1)
          (eq_false_of_not_true h2) (eq_false_of_not_true h3)

theorem applyLine_progress (st : LState) (line : Option J) (hg : goodLine line = true)
    (hst : GoodSt st) : ∃ st', applyLine st line = .ok st' ∧ GoodSt st' := by
  cases line with
  | none => exact ⟨st, rfl, hst⟩
  | some entry =>
      replace hg : (match extract_tool_calls_from_entry entry with
        | Except.ok tcs => tcs.all goodCall
        | Except.error e => false) = true := hg
      cases hx : extract_tool_calls_from_entry entry with
      | error e =>
          rw [hx] at hg
          exact absurd hg Bool.false_ne_true
      | ok tcs =>
          rw [hx] at hg
          obtain ⟨st', hrun, hst'⟩ := foldlM_ok_progress applyToolCall
            (fun tc => goodCall tc = true) GoodSt
            (fun s tc hq hp => applyToolCall_progress s tc hq hp) tcs st
            (fun tc htc => List.all_eq_true.mp hg tc htc) hst
          refine ⟨st', ?_, hst'⟩
          show (match extract_tool_calls_from_entry entry with
            | Except.error e => Except.error e
            | Except.ok tcs => tcs.foldlM applyToolCall st) = Except.ok st'
          rw [hx]
          exact hrun

theorem runLines_filter (lines : List (Option J)) : ∀ (st : LState),
    lines.foldlM applyLine st = (lines.filter Option.isSome).foldlM applyLine st := by
  induction lines with
  | nil =>
      intro st
      rfl
  | cons line lines ih =>
      intro st
      cases line with
      | none =>
          rw [List.filter_cons, if_neg (show ¬((none : Option J).isSome = true) from
            Bool.false_ne_true), List.foldlM_cons]
          show lines.foldlM applyLine st = _
          exact ih st
      | some entry =>
          rw [List.filter_cons, if_pos (show (some entry).isSome = true from rfl),
            List.foldlM_cons, List.foldlM_cons]
          exact congrArg (fun k => applyLine st (some entry) >>= k)
            (funext fun st₁ => ih st₁)

/-- C2 counterexample: a line that decodes to the JSON value `42` (valid JSON,
not an object) makes `entry.get("type")` raise `AttributeError`, which escapes
the pass instead of the line being skipped. -/
theorem claim_C2_counterexample :
    find_incomplete_items (some [some (J.num 42)]) = .error () := rfl

/-- C2 (amended): blank and undecodable lines are skipped silently — the run
equals the run on the stream with them removed — and the extraction/reduction
is exception-free whenever every decoded line is a JSON object whose
extracted tool payloads are well-shaped; totality does NOT extend to
arbitrary decoded line contents (see the counterexample). -/
theorem claim_C2_skipAndTotality (lines : List (Option J)) :
    find_incomplete_items (some lines) =
      find_incomplete_items (some (lines.filter Option.isSome)) ∧
    ((∀ l ∈ lines, goodLine l = true) →
      ∃ items, find_incomplete_items (some lines) = .ok items) := by
  constructor
  · show (match runLines lines with
      | Except.error e => Except.error e
      | Except.ok st => buildItems st) =
      (match runLines (lines.filter Option.isSome) with
      | Except.error e => Except.error e
      | Except.ok st => buildItems st)
    unfold runLines
    rw [runLines_filter lines initState]
  · intro hg
    obtain ⟨st, hrun, hst⟩ := foldlM_ok_progress applyLine (fun l => goodLine l = true)
      GoodSt applyLine_progress lines initState hg
      ⟨rfl, fun p hp => absurd hp (List.not_mem_nil p)⟩
    have hlt : ∃ ts, st.latest_todos = J.arr ts ∧ ∀ t ∈ ts, isObjB t = true := by
      have := hst.1
      cases hc : st.latest_todos with
      | arr ts =>
          rw [hc] at this
          exact ⟨ts, rfl, fun t ht => List.all_eq_true.mp this t ht⟩
      | null => rw [hc] at this; exact absurd this (by simp [objsOnly])
      | bool b => rw [hc] at this; exact absurd this (by simp [objsOnly])
      | num x => rw [hc] at this; exact absurd this (by simp [objsOnly])
      | str s => rw [hc] at this; exact absurd this (by simp [objsOnly])
      | obj kvs => rw [hc] at this; exact absurd this (by simp [objsOnly])
    obtain ⟨ts, hc, hto⟩ := hlt
    refine ⟨(ts.filter todoIncluded).map mkTodoItem ++
      (st.tasks.filter taskIncluded).map mkTaskItem, ?_⟩
    show (match runLines lines with
      | Except.error e => Except.error e
      | Except.ok st => buildItems st) = _
    rw [show runLines lines = .ok st from hrun]
    exact buildItems_eq st ts hst.2 hc hto

theorem claim_C2_skipAndTotality_witness :
    (find_incomplete_items (some [none, some (J.obj [("type", J.str "tool_use"),
        ("name", J.str "TodoWrite"),
        ("input", J.obj [("todos", J.arr [J.obj [("status", J.str "pending"),
          ("content", J.str "w")]])])])]) =
      find_incomplete_items (some (([none, some (J.obj [("type", J.str "tool_use"),
        ("name", J.str "TodoWrite"),
        ("input", J.obj [("todos", J.arr [J.obj [("status", J.str "pending"),
          ("content", J.str "w")]])])])] : List (Option J)).filter Option.isSome))) ∧
    ∃ items, find_incomplete_items (some [none, some (J.obj [("type", J.str "tool_use"),
        ("name", J.str "TodoWrite"),
        ("input", J.obj [("todos", J.arr [J.obj [("status", J.str "pending"),
          ("content", J.str "w")]])])])]) = .ok items :=
  ⟨(claim_C2_skipAndTotality _).1, (claim_C2_skipAndTotality _).2 (by decide)⟩

theorem mem_snapItem1_task_id {it : Item} {f : String × Option (List (String × J))}
    (h : it ∈ snapItem1 f) : it.task_id = some (J.str f.1) := by
  unfold snapItem1 at h
  cases hf : f.2 with
  | none =>
      rw [hf] at h
      exact absurd h (List.not_mem_nil it)
  | some kvs =>
      rw [hf] at h
      replace h : it ∈ (if ((kvs.lookup "status").getD (.str "pending")) == J.str "completed" ||
          ((kvs.lookup "status").getD (.str "pending")) == J.str "deleted" then ([] : List Item)
        else [⟨(kvs.lookup "status").getD (.str "pending"),
          pyOr ((kvs.lookup "subject").getD (.str ""))
            (pyOr ((kvs.lookup "description").getD (.str "")) (.str ("Task " ++ f.1))),
          "task", some (.str f.1)⟩]) := h
      by_cases hc : (((kvs.lookup "status").getD (.str "pending")) == J.str "completed" ||
          ((kvs.lookup "status").getD (.str "pending")) == J.str "deleted") = true
      · rw [if_pos hc] at h
        exact absurd h (List.not_mem_nil it)
      · rw [if_neg hc] at h
        rw [List.mem_singleton] at h
        rw [h]

theorem mem_snapItems {it : Item} {files : List (String × Option (List (String × J)))}
    (h : it ∈ snapItems files) : ∃ f ∈ files, it.task_id = some (J.str f.1) := by
  unfold snapItems at h
  obtain ⟨l, hl, hit⟩ := List.mem_flatten.mp h
  obtain ⟨f, hf, he⟩ := List.mem_map.mp hl
  exact ⟨f, hf, mem_snapItem1_task_id (he ▸ hit)⟩

/-- Whether a parsed snapshot file is kept by the reader (spec §4.4: files
whose status is `"completed"` or `"deleted"` are excluded entirely). -/
def snapIncluded (kvs : List (String × J)) : Bool :=
  !((((kvs.lookup "status").getD (.str "pending")) == J.str "completed") ||
    (((kvs.lookup "status").getD (.str "pending")) == J.str "deleted"))

theorem snapItems_unique (tid : String) :
    ∀ (files : List (String × Option (List (String × J)))) (kvs : List (String × J)),
    (files.map Prod.fst).Nodup → (tid, some kvs) ∈ files →
    (snapIncluded kvs = true →
      ((snapItems files).filter (fun it => it.task_id == some (J.str tid))).length = 1) ∧
    (snapIncluded kvs = false →
      ∀ it ∈ snapItems files, ¬(it.task_id = some (J.str tid)))
  | [], kvs, _, hmem => absurd hmem (List.not_mem_nil _)
  | f :: files, kvs, hnd, hmem => by
      have hnd' : (files.map Prod.fst).Nodup := (List.nodup_cons.mp (by
        rw [List.map_cons] at hnd; exact hnd)).2
      have hhead : f.1 ∉ files.map Prod.fst := (List.nodup_cons.mp (by
        rw [List.map_cons] at hnd; exact hnd)).1
      have hsplit : snapItems (f :: files) = snapItem1 f ++ snapItems files := rfl
      rcases List.mem_cons.mp hmem with he | hmem'
      · have hf1 : f.1 = tid := by rw [← he]
        have hf2 : f.2 = some kvs := by rw [← he]
        have hrest : ∀ it ∈ snapItems files, ¬(it.task_id = some (J.str tid)) := by
          intro it hit hid
          obtain ⟨f', hf', hid'⟩ := mem_snapItems hit
          rw [hid'] at hid
          have : f'.1 = tid := by
            have := Option.some.inj hid
            exact J.str.inj this
          rw [← hf1] at this
          exact absurd (this ▸ List.mem_map_of_mem Prod.fst hf') hhead
        constructor
        · intro hinc
          rw [hsplit, List.filter_append]
          have hresteq : (snapItems files).filter
              (fun it => it.task_id == some (J.str tid)) = [] := by
            rw [List.filter_eq_nil_iff]
            intro it hit hb
            exact hrest it hit (eq_of_beq hb)
          rw [hresteq, List.append_nil]
          have hc : (((kvs.lookup "status").getD (.str "pending")) == J.str "completed" ||
              ((kvs.lookup "status").getD (.str "pending")) == J.str "deleted") = false := by
            unfold snapIncluded at hinc
            cases hx : (((kvs.lookup "status").getD (.str "pending")) == J.str "completed" ||
                ((kvs.lookup "status").getD (.str "pending")) == J.str "deleted")
            · rfl
            · rw [hx] at hinc
              exact absurd hinc (by decide)
          have h1 : snapItem1 f = [⟨(kvs.lookup "status").getD (.str "pending"),
              pyOr ((kvs.lookup "subject").getD (.str ""))
                (pyOr ((kvs.lookup "description").getD (.str "")) (.str ("Task " ++ f.1))),
              "task", some (.str f.1)⟩] := by
            unfold snapItem1
            rw [hf2]
            show (if ((kvs.lookup "status").getD (.str "pending")) == J.str "completed" ||
                ((kvs.lookup "status").getD (.str "pending")) == J.str "deleted"
              then ([] : List Item)
              else [⟨(kvs.lookup "status").getD (.str "pending"),
                pyOr ((kvs.lookup "subject").getD (.str ""))
                  (pyOr ((kvs.lookup "description").getD (.str "")) (.str ("Task " ++ f.1))),
                "task", some (.str f.1)⟩]) = _
            rw [if_neg (by rw [hc]; exact Bool.false_ne_true)]
          rw [h1, hf1]
          rw [List.filter_cons, if_pos (by
            show (some (J.str tid) == some (J.str tid)) = true
            exact beq_self_eq_true _)]
          rfl
        · intro hexc
          intro it hit
          rw [hsplit] at hit
          rcases List.mem_append.mp hit with hit | hit
          · have h1 : snapItem1 f = [] := by
              unfold snapItem1
              rw [hf2]
              show (if ((kvs.lookup "status").getD (.str "pending")) == J.str "completed" ||
                  ((kvs.lookup "status").getD (.str "pending")) == J.str "deleted"
                then ([] : List Item)
                else [⟨(kvs.lookup "status").getD (.str "pending"),
                  pyOr ((kvs.lookup "subject").getD (.str ""))
                    (pyOr ((kvs.lookup "description").getD (.str "")) (.str ("Task " ++ f.1))),
                  "task", some (.str f.1)⟩]) = _
              rw [if_pos (by
                unfold snapIncluded at hexc
                cases hx : (((kvs.lookup "status").getD (.str "pending")) == J.str "completed" ||
                    ((kvs.lookup "status").getD (.str "pending")) == J.str "deleted")
                · rw [hx] at hexc
                  exact absurd hexc (by decide)
                · rfl)]
            rw [h1] at hit
            exact absurd hit (List.not_mem_nil it)
          · exact hrest it hit
      · have ih := snapItems_unique tid files kvs hnd' hmem'
        have hne : f.1 ≠ tid := by
          intro he1
          have hmemtid : tid ∈ files.map Prod.fst := List.mem_map_of_mem Prod.fst hmem'
          rw [← he1] at hmemtid
          exact absurd hmemtid hhead
        have hheadni : ∀ it ∈ snapItem1 f, ¬(it.task_id = some (J.str tid)) := by
          intro it hit hid
          have := mem_snapItem1_task_id hit
          rw [this] at hid
          exact hne (J.str.inj (Option.some.inj hid))
        constructor
        · intro hinc
          rw [hsplit, List.filter_append]
          have hh : (snapItem1 f).filter (fun it => it.task_id == some (J.str tid)) = [] := by
            rw [List.filter_eq_nil_iff]
            intro it hit hb
            exact hheadni it hit (eq_of_beq hb)
          rw [hh, List.nil_append]
          exact ih.1 hinc
        · intro hexc it hit
          rw [hsplit] at hit
          rcases List.mem_append.mp hit with hit | hit
          · exact hheadni it hit
          · exact ih.2 hexc it hit

/-- C1: (spec-modelled — the snapshot reader is absent from the source tree)
for a snapshot directory with distinct file names, a task file with status
`"in_progress"` or with no status yields exactly one task-sourced incomplete
item whose id is the file's stem, a file with status `"completed"` or
`"deleted"` never appears; scenario: an empty event log plus a single file
`7.json` with `{"status":"pending","subject":"fix bug"}` produces exit code 1
and an output line referencing task id 7 with content `fix bug`. -/
theorem claim_C1_snapshotReflected
    (files : List (String × Option (List (String × J)))) (tid : String)
    (kvs : List (String × J))
    (hnd : (files.map Prod.fst).Nodup)
    (hmem : (tid, some kvs) ∈ files) :
    ((kvs.lookup "status" = none ∨ kvs.lookup "status" = some (J.str "in_progress")) →
      ((snapItems files).filter (fun it => it.task_id == some (J.str tid))).length = 1) ∧
    ((kvs.lookup "status" = some (J.str "completed") ∨
        kvs.lookup "status" = some (J.str "deleted")) →
      ∀ it ∈ snapItems files, ¬(it.task_id = some (J.str tid))) ∧
    reconcileWithSnapshot []
      [("7", some [("status", J.str "pending"), ("subject", J.str "fix bug")])] =
      .ok (1, ["INCOMPLETE_TODOS", "  - [pending] (Task #7) fix bug"]) := by
  have h := snapItems_unique tid files kvs hnd hmem
  refine ⟨?_, ?_, rfl⟩
  · intro hstat
    apply h.1
    unfold snapIncluded
    rcases hstat with hstat | hstat
    · rw [hstat]
      decide
    · rw [hstat]
      decide
  · intro hstat
    apply h.2
    unfold snapIncluded
    rcases hstat with hstat | hstat
    · rw [hstat]
      decide
    · rw [hstat]
      decide

theorem claim_C1_snapshotReflected_witness :
    ((snapItems [("7", some [("subject", J.str "x")])]).filter
      (fun it => it.task_id == some (J.str "7"))).length = 1 ∧
    reconcileWithSnapshot []
      [("7", some [("status", J.str "pending"), ("subject", J.str "fix bug")])] =
      .ok (1, ["INCOMPLETE_TODOS", "  - [pending] (Task #7) fix bug"]) := by
  have h := claim_C1_snapshotReflected [("7", some [("subject", J.str "x")])] "7"
    [("subject", J.str "x")] (by decide) (by decide)
  exact ⟨h.1 (Or.inl (by decide)), h.2.2⟩
